import Mathlib

/-!
Shallow embedding of `api/core/app/task_pipeline/workflow_cycle_manage.py`
(class `WorkflowCycleManage`) from the dify repository, together with the
small slice of its data model the claims need.

Modelling conventions:
* Serialized map payloads (`inputs`, `process_data`, `outputs`, …) are JSON
  values.  The source stores them with `json.dumps` and reads them back with
  `json.loads`; we keep them structured, so serialization is the identity and
  a nullable serialized column becomes an `Option`.
* Python exceptions (`KeyError` on a missing bookkeeping entry,
  `AttributeError` on a `None` query result) are modelled by the handlers
  returning `none`.
* Python truthiness (`if not value`) is modelled by `Value.truthy`.
* `time.perf_counter()` / `datetime.utcnow()` are modelled by one abstract
  monotone clock: each processed event advances it by one tick.
-/

namespace Dify

/-- JSON-like values: the payloads that appear in `outputs_dict`,
`inputs_dict` etc. after a `json.dumps`/`json.loads` round trip.  Native
`FileVar` objects cannot occur inside such a value (JSON decoding only
produces dicts, lists, strings, numbers, booleans and null), which is why the
embedding of `_get_file_var_from_value` below has no `isinstance(value,
FileVar)` case: at its call sites the argument always comes from an
`outputs_dict`. -/
inductive Value where
  | null : Value
  | bool (b : Bool) : Value
  | int (n : Int) : Value
  | str (s : String) : Value
  | list (xs : List Value) : Value
  | dict (entries : List (String × Value)) : Value

/-- Python truthiness of a JSON value (`if not value`). -/
def Value.truthy : Value → Bool
  | .null => false
  | .bool b => b
  | .int n => n != 0
  | .str s => !s.isEmpty
  | .list xs => !xs.isEmpty
  | .dict es => !es.isEmpty

/-- A Python dict with string keys, as an association list (keys unique by
construction of every operation below, later writes win). -/
abbrev Dict := List (String × Value)

/-- Dict lookup: `d.get(k)` / `d[k]` (first matching key). -/
def assocGet? {α : Type} (l : List (String × α)) (k : String) : Option α :=
  (l.find? (fun p => p.1 == k)).map (·.2)

/-- Dict assignment `d[k] = v`: replaces the first binding of `k`, appends
when absent. -/
def assocInsert {α : Type} (l : List (String × α)) (k : String) (v : α) :
    List (String × α) :=
  match l with
  | [] => [(k, v)]
  | (k', v') :: rest =>
      if k' == k then (k, v) :: rest else (k', v') :: assocInsert rest k v

/-- Source: `_get_file_var_from_value` — a value is recognized as a file when
it is a (truthy) dict whose `'__variant'` entry equals `FileVar.__name__`
(the string `"FileVar"`).  The `isinstance(value, FileVar)` branch is
unreachable for JSON-decoded values (see `Value`). -/
def get_file_var_from_value (value : Value) : Option Value :=
  if !value.truthy then none
  else
    match value with
    | .dict es =>
        match assocGet? es "__variant" with
        | some (.str s) => if s == "FileVar" then some value else none
        | _ => none
    | _ => none

/-- Source: `_fetch_files_from_variable_value` — a list contributes every
element recognized as a file, in order; a dict contributes itself when
recognized; everything else contributes nothing.  (`if file_var:
files.append(file_var)` keeps exactly the `some` results: a recognized file
dict is non-empty, hence truthy.) -/
def fetch_files_from_variable_value (value : Value) : List Value :=
  if !value.truthy then []
  else
    match value with
    | .list items => items.filterMap get_file_var_from_value
    | .dict _ => (get_file_var_from_value value).toList
    | _ => []

/-- Source: `_fetch_files_from_node_outputs` — walk the outputs dict (absent
or empty yields `[]`) and concatenate the files found under each variable, in
key order. -/
def fetch_files_from_node_outputs (outputs_dict : Option Dict) : List Value :=
  match outputs_dict with
  | none => []
  | some es =>
      if es.isEmpty then []
      else es.flatMap (fun kv => fetch_files_from_variable_value kv.2)

/-- Claim-side restatement of file discovery, following the spec's words:
a file-tagged map yields exactly one descriptor (itself), a list yields one
descriptor per file-tagged element in list order, and any other value yields
nothing. -/
def isFileDict (v : Value) : Bool :=
  match v with
  | .dict es =>
      match assocGet? es "__variant" with
      | some (.str s) => s == "FileVar"
      | _ => false
  | _ => false

/-- Claim-side per-value file extraction (see `isFileDict`). -/
def claimFilesOfValue (v : Value) : List Value :=
  match v with
  | .list xs => xs.filter (fun x => isFileDict x)
  | _ => if isFileDict v then [v] else []

lemma variant_match_ite (o : Option Value) (d : Value) :
    (match o with
     | some (Value.str s) => if s == "FileVar" then some d else none
     | _ => none) =
    (if (match o with
         | some (Value.str s) => s == "FileVar"
         | _ => false) = true then some d else none) := by
  rcases o with _ | w
  · simp
  · cases w <;> simp

lemma get_file_var_eq_isFileDict (v : Value) :
    get_file_var_from_value v = if isFileDict v then some v else none := by
  cases v with
  | dict es =>
      cases es with
      | nil => simp [get_file_var_from_value, isFileDict, Value.truthy, assocGet?]
      | cons kv rest =>
          simp only [get_file_var_from_value, isFileDict, Value.truthy, List.isEmpty_cons,
            Bool.not_true, Bool.false_eq_true, if_false]
          exact variant_match_ite (assocGet? (kv :: rest) "__variant") (Value.dict (kv :: rest))
  | null => simp [get_file_var_from_value, isFileDict, Value.truthy]
  | bool b => cases b <;> simp [get_file_var_from_value, isFileDict, Value.truthy]
  | int n => by_cases h : n = 0 <;> simp [get_file_var_from_value, isFileDict, Value.truthy, h]
  | str s => by_cases h : s.isEmpty <;> simp [get_file_var_from_value, isFileDict, Value.truthy, h]
  | list xs => cases xs <;> simp [get_file_var_from_value, isFileDict, Value.truthy]

lemma filterMap_get_file_var_eq_filter (xs : List Value) :
    xs.filterMap get_file_var_from_value = xs.filter (fun x => isFileDict x) := by
  induction xs with
  | nil => rfl
  | cons x rest ih =>
      rw [List.filterMap_cons, List.filter_cons]
      rw [get_file_var_eq_isFileDict]
      by_cases h : isFileDict x <;> simp [h, ih]

lemma fetch_files_from_variable_value_eq (v : Value) :
    fetch_files_from_variable_value v = claimFilesOfValue v := by
  cases v with
  | list xs =>
      cases xs with
      | nil => simp [fetch_files_from_variable_value, claimFilesOfValue, Value.truthy]
      | cons x rest =>
          simp only [fetch_files_from_variable_value, claimFilesOfValue, Value.truthy,
            List.isEmpty_cons, Bool.not_true, Bool.false_eq_true, if_false]
          exact filterMap_get_file_var_eq_filter (x :: rest)
  | dict es =>
      cases es with
      | nil => simp [fetch_files_from_variable_value, claimFilesOfValue, isFileDict,
          Value.truthy, assocGet?]
      | cons kv rest =>
          simp only [fetch_files_from_variable_value, claimFilesOfValue, Value.truthy,
            List.isEmpty_cons, Bool.not_true, Bool.false_eq_true, if_false]
          rw [get_file_var_eq_isFileDict]
          by_cases h : isFileDict (Value.dict (kv :: rest)) <;> simp [h]
  | null => simp [fetch_files_from_variable_value, claimFilesOfValue, isFileDict, Value.truthy]
  | bool b => cases b <;>
      simp [fetch_files_from_variable_value, claimFilesOfValue, isFileDict, Value.truthy]
  | int n => by_cases h : n = 0 <;>
      simp [fetch_files_from_variable_value, claimFilesOfValue, isFileDict, Value.truthy, h]
  | str s => by_cases h : s.isEmpty <;>
      simp [fetch_files_from_variable_value, claimFilesOfValue, isFileDict, Value.truthy, h]

/-! ## Event model

Queue events consumed by `WorkflowCycleManage` (shapes per
`core/app/entities/queue_entities.py` as used in the source and listed in
spec §6). -/

/-- `QueueNodeStartedEvent` fields used by `_handle_node_start`
(`event.node_id`, `event.node_type`, `event.node_data.title`,
`event.node_run_index`, `event.predecessor_node_id`). -/
structure NodeStartedEvent where
  node_id : String
  node_type : String
  title : String
  node_run_index : Nat
  predecessor_node_id : Option String

/-- `QueueNodeSucceededEvent` fields used by `_handle_node_finished`.
`execution_metadata` is a dict from metadata keys to integers; only its
`"total_tokens"` entry (`NodeRunMetadataKey.TOTAL_TOKENS`) is ever read
individually by the source, the rest of the dict is stored opaquely. -/
structure NodeSucceededEvent where
  node_id : String
  inputs : Option Dict
  process_data : Option Dict
  outputs : Option Dict
  execution_metadata : Option (List (String × Int))

/-- `QueueNodeFailedEvent` fields used by `_handle_node_finished`. -/
structure NodeFailedEvent where
  node_id : String
  error : String
  inputs : Option Dict
  process_data : Option Dict
  outputs : Option Dict

/-- The six queue event kinds the cycle manager consumes. -/
inductive Event where
  | nodeStarted (e : NodeStartedEvent)
  | nodeSucceeded (e : NodeSucceededEvent)
  | nodeFailed (e : NodeFailedEvent)
  | stop
  | workflowSucceeded
  | workflowFailed (error : String)

/-! ## Persisted records and repository -/

/-- `WorkflowRunStatus` (models/workflow.py values `running` / `succeeded` /
`failed` / `stopped`). -/
inductive RunStatus where
  | running | succeeded | failed | stopped
deriving DecidableEq, Repr

/-- `WorkflowNodeExecutionStatus` values used by the source. -/
inductive NodeStatus where
  | running | succeeded | failed
deriving DecidableEq, Repr

/-- Row of the `workflow_run` table, the columns the source touches.
Serialized blob columns (`inputs`, `outputs`, `graph`) are kept structured
(see the file header); nullable columns are `Option`. -/
structure WorkflowRunRecord where
  id : Nat
  tenant_id : String
  app_id : String
  sequence_number : Nat
  workflow_id : String
  type : String
  triggered_from : String
  version : String
  graph : Option String
  inputs : Dict
  status : RunStatus
  outputs : Option Dict
  error : Option String
  elapsed_time : Nat
  total_tokens : Int
  total_steps : Nat
  created_by_role : String
  created_by : String
  created_at : Nat
  finished_at : Option Nat

/-- Row of the `workflow_node_execution` table, the columns the source
touches. -/
structure NodeExecutionRecord where
  id : Nat
  tenant_id : String
  app_id : String
  workflow_id : String
  triggered_from : String
  workflow_run_id : Nat
  predecessor_node_id : Option String
  index : Nat
  node_id : String
  node_type : String
  title : String
  status : NodeStatus
  inputs : Option Dict
  process_data : Option Dict
  outputs : Option Dict
  execution_metadata : Option (List (String × Int))
  error : Option String
  elapsed_time : Nat
  created_by_role : String
  created_by : String
  created_at : Nat
  finished_at : Option Nat

/-- The abstract repository (spec §2: "abstract durable store").  Runs are a
table of rows queried by `id` equality and by the `(tenant_id, app_id)`
max-`sequence_number` aggregate; node executions are only ever queried by
their unique primary key `id`, so that table is modelled as an id-indexed
map.  `nextId` supplies fresh primary keys. -/
structure Database where
  runs : List WorkflowRunRecord
  nodeExecs : Nat → Option NodeExecutionRecord
  nextId : Nat

/-- `db.session.query(WorkflowRun).filter(WorkflowRun.id == i).first()`. -/
def findRun (db : Database) (i : Nat) : Option WorkflowRunRecord :=
  db.runs.find? (fun r => r.id == i)

/-- Commit of a mutated run row: replaces the row with the same id. -/
def updateRun (db : Database) (r' : WorkflowRunRecord) : Database :=
  { db with runs := db.runs.map (fun r => if r.id == r'.id then r' else r) }

/-- `db.session.query(WorkflowNodeExecution).filter(WorkflowNodeExecution.id
== i).first()`. -/
def findNodeExec (db : Database) (i : Nat) : Option NodeExecutionRecord :=
  db.nodeExecs i

/-- Commit of a mutated node-execution row (same primary key). -/
def updateNodeExec (db : Database) (r' : NodeExecutionRecord) : Database :=
  { db with nodeExecs := fun j => if j == r'.id then some r' else db.nodeExecs j }

/-- Insert of a fresh node-execution row. -/
def insertNodeExec (db : Database) (r : NodeExecutionRecord) : Database :=
  { db with
    nodeExecs := fun j => if j == r.id then some r else db.nodeExecs j,
    nextId := db.nextId + 1 }

/-! ## Task state -/

/-- `NodeExecutionInfo` (task_entities): bookkeeping registered per node id
at node start. -/
structure NodeExecutionInfo where
  workflow_node_execution_id : Nat
  node_type : String
  start_at : Nat
deriving DecidableEq, Repr

/-- The slice of `WorkflowTaskState` / `AdvancedChatTaskState` that
`WorkflowCycleManage` reads and writes.  `metadata_usage` models
`_task_state.metadata['usage']` (the only metadata slot the source touches);
`none` means the key was never set. -/
structure TaskState where
  start_at : Nat
  workflow_run_id : Nat
  total_tokens : Int
  total_steps : Nat
  ran_node_execution_infos : List (String × NodeExecutionInfo)
  latest_node_execution_info : Option NodeExecutionInfo
  metadata_usage : Option Value

/-! ## Workflow start (`_init_workflow_run` / `_handle_workflow_start`) -/

/-- The `Workflow` attributes `_init_workflow_run` reads. -/
structure WorkflowInfo where
  id : String
  tenant_id : String
  app_id : String
  type : String
  version : String
  graph : Option String

/-- `Union[Account, EndUser]`: only the id and which of the two classes the
user is matter to the source. -/
structure User where
  id : String
  is_account : Bool

/-- Runs in the `(tenant_id, app_id)` scope of a workflow. -/
def scopedRuns (db : Database) (tenant app : String) : List WorkflowRunRecord :=
  db.runs.filter (fun r => r.tenant_id == tenant && r.app_id == app)

/-- the `db.func.max(WorkflowRun.sequence_number)` aggregate over the
`(tenant, app)` scope, with the source's `or 0` for an empty scope. -/
def maxSequence (db : Database) (tenant app : String) : Nat :=
  ((scopedRuns db tenant app).map (fun r => r.sequence_number)).foldl max 0

/-- Modelled from the spec: `WorkflowEngineManager.handle_special_values`
lives in `core/workflow/workflow_engine_manager.py`, which is not part of
the specified core (spec §1 scopes the graph execution engine out); on the
JSON payloads of spec §6 it is taken to be the identity (its job is to turn
native file objects, which cannot occur in a JSON value, into dicts). -/
def handle_special_values (d : Option Dict) : Option Dict := d

/-- The source's `{**user_inputs}` followed by
`inputs[f'sys.{key.value}'] = value` for every system input. -/
def mergeInputs (user_inputs : Dict) (system_inputs : List (String × Value)) :
    Dict :=
  system_inputs.foldl (fun acc kv => assocInsert acc ("sys." ++ kv.1) kv.2)
    user_inputs

/-- Source: `_init_workflow_run`.  Computes the next sequence number, merges
inputs, and inserts a `RUNNING` run row (`created_at` is the commit time,
fields not set by the constructor take their column defaults). -/
def init_workflow_run (db : Database) (clk : Nat) (workflow : WorkflowInfo)
    (triggered_from : String) (user : User) (user_inputs : Dict)
    (system_inputs : List (String × Value)) :
    WorkflowRunRecord × Database :=
  let max_sequence := maxSequence db workflow.tenant_id workflow.app_id
  let new_sequence_number := max_sequence + 1
  let inputs := (handle_special_values
    (some (mergeInputs user_inputs system_inputs))).getD []
  let workflow_run : WorkflowRunRecord :=
    { id := db.nextId
      tenant_id := workflow.tenant_id
      app_id := workflow.app_id
      sequence_number := new_sequence_number
      workflow_id := workflow.id
      type := workflow.type
      triggered_from := triggered_from
      version := workflow.version
      graph := workflow.graph
      inputs := inputs
      status := RunStatus.running
      outputs := none
      error := none
      elapsed_time := 0
      total_tokens := 0
      total_steps := 0
      created_by_role := if user.is_account then "account" else "end_user"
      created_by := user.id
      created_at := clk
      finished_at := none }
  (workflow_run,
   { db with runs := db.runs ++ [workflow_run], nextId := db.nextId + 1 })

/-- Source: `_handle_workflow_start`.  Records `start_at`, creates the run,
and stores the new run id in task state. -/
def handle_workflow_start (clk : Nat) (ts : TaskState) (db : Database)
    (workflow : WorkflowInfo) (invoke_from_debugger : Bool) (user : User)
    (user_inputs : Dict) (system_inputs : List (String × Value)) :
    WorkflowRunRecord × TaskState × Database :=
  let ts := { ts with start_at := clk }
  let triggered_from := if invoke_from_debugger then "debugging" else "app-run"
  let (workflow_run, db) :=
    init_workflow_run db clk workflow triggered_from user user_inputs
      system_inputs
  (workflow_run, { ts with workflow_run_id := workflow_run.id }, db)

/-! ## Node events (`_handle_node_start` / `_handle_node_finished`) -/

/-- `json.dumps(d) if d else None`: an absent or empty (falsy) dict is
stored as a null column. -/
def storeDict (d : Option Dict) : Option Dict :=
  match d with
  | none => none
  | some es => if es.isEmpty then none else some es

/-- `json.dumps(jsonable_encoder(m)) if m else None` for
`execution_metadata`. -/
def storeMeta (m : Option (List (String × Int))) : Option (List (String × Int)) :=
  match m with
  | none => none
  | some es => if es.isEmpty then none else some es

/-- Source: `_handle_node_start`.  Loads the owning run (an absent run makes
the attribute accesses in `_init_node_execution_from_workflow_run` raise:
`none`), inserts a `RUNNING` node-execution row, registers the bookkeeping
info under the event's node id, moves the "latest" pointer and increments
`total_steps`. -/
def handle_node_start (clk : Nat) (ts : TaskState) (db : Database)
    (e : NodeStartedEvent) :
    Option (NodeExecutionRecord × TaskState × Database) :=
  match findRun db ts.workflow_run_id with
  | none => none
  | some workflow_run =>
      let workflow_node_execution : NodeExecutionRecord :=
        { id := db.nextId
          tenant_id := workflow_run.tenant_id
          app_id := workflow_run.app_id
          workflow_id := workflow_run.workflow_id
          triggered_from := "workflow-run"
          workflow_run_id := workflow_run.id
          predecessor_node_id := e.predecessor_node_id
          index := e.node_run_index
          node_id := e.node_id
          node_type := e.node_type
          title := e.title
          status := NodeStatus.running
          inputs := none
          process_data := none
          outputs := none
          execution_metadata := none
          error := none
          elapsed_time := 0
          created_by_role := workflow_run.created_by_role
          created_by := workflow_run.created_by
          created_at := clk
          finished_at := none }
      let latest_node_execution_info : NodeExecutionInfo :=
        { workflow_node_execution_id := workflow_node_execution.id
          node_type := e.node_type
          start_at := clk }
      let ts :=
        { ts with
          ran_node_execution_infos :=
            assocInsert ts.ran_node_execution_infos e.node_id
              latest_node_execution_info
          latest_node_execution_info := some latest_node_execution_info
          total_steps := ts.total_steps + 1 }
      some (workflow_node_execution, ts, insertNodeExec db workflow_node_execution)

/-- Source: `_workflow_node_execution_success` — marks the row `SUCCEEDED`
and stores the event payloads (`handle_special_values` is the identity
here, see its doc). -/
def workflow_node_execution_success (wne : NodeExecutionRecord) (clk : Nat)
    (start_at : Nat) (inputs process_data outputs : Option Dict)
    (execution_metadata : Option (List (String × Int))) : NodeExecutionRecord :=
  { wne with
    status := NodeStatus.succeeded
    elapsed_time := clk - start_at
    inputs := storeDict (handle_special_values inputs)
    process_data := storeDict process_data
    outputs := storeDict (handle_special_values outputs)
    execution_metadata := storeMeta execution_metadata
    finished_at := some clk }

/-- Source: `_workflow_node_execution_failed` — marks the row `FAILED` with
the error and stores the partial payloads (`execution_metadata` is not
touched). -/
def workflow_node_execution_failed (wne : NodeExecutionRecord) (clk : Nat)
    (start_at : Nat) (error : String)
    (inputs process_data outputs : Option Dict) : NodeExecutionRecord :=
  { wne with
    status := NodeStatus.failed
    error := some error
    elapsed_time := clk - start_at
    finished_at := some clk
    inputs := storeDict (handle_special_values inputs)
    process_data := storeDict process_data
    outputs := storeDict (handle_special_values outputs) }

/-- the `event.execution_metadata and
event.execution_metadata.get(NodeRunMetadataKey.TOTAL_TOKENS)` guard with
the guarded `int(...)` increment folded in: the amount actually added to
`total_tokens` (0 whenever the guard is falsy). -/
def tokenIncrement (m : Option (List (String × Int))) : Int :=
  match m with
  | none => 0
  | some es =>
      if es.isEmpty then 0
      else
        match assocGet? es "total_tokens" with
        | none => 0
        | some t => if t == 0 then 0 else t

/-- Source: `_handle_node_finished`.  Looks the bookkeeping up by node id
(`KeyError` when absent: `none`), loads the row by execution id
(`AttributeError` on an absent row: `none`); on success stores the payloads,
accumulates reported token usage, and for an `'llm'`-typed row snapshots the
outputs' `'usage'` entry into the task-state metadata (reading
`outputs_dict`, which raises on a null outputs column: `none`); on failure
stores the error and payloads. -/
def handle_node_finished (clk : Nat) (ts : TaskState) (db : Database)
    (e : Event) : Option (NodeExecutionRecord × TaskState × Database) :=
  match e with
  | .nodeSucceeded ev =>
      match assocGet? ts.ran_node_execution_infos ev.node_id with
      | none => none
      | some current_node_execution =>
          match findNodeExec db current_node_execution.workflow_node_execution_id with
          | none => none
          | some wne =>
              let wne' := workflow_node_execution_success wne clk
                current_node_execution.start_at ev.inputs ev.process_data
                ev.outputs ev.execution_metadata
              let db := updateNodeExec db wne'
              let ts :=
                { ts with total_tokens :=
                    ts.total_tokens + tokenIncrement ev.execution_metadata }
              if wne'.node_type == "llm" then
                match wne'.outputs with
                | none => none
                | some od =>
                    let usage_dict := (assocGet? od "usage").getD (Value.dict [])
                    some (wne', { ts with metadata_usage := some usage_dict }, db)
              else
                some (wne', ts, db)
  | .nodeFailed ev =>
      match assocGet? ts.ran_node_execution_infos ev.node_id with
      | none => none
      | some current_node_execution =>
          match findNodeExec db current_node_execution.workflow_node_execution_id with
          | none => none
          | some wne =>
              let wne' := workflow_node_execution_failed wne clk
                current_node_execution.start_at ev.error ev.inputs
                ev.process_data ev.outputs
              some (wne', ts, updateNodeExec db wne')
  | _ => none

/-- Source: `_workflow_run_success` — the run row mutation + commit. -/
def workflow_run_success (run : WorkflowRunRecord) (clk : Nat)
    (start_at : Nat) (total_tokens : Int) (total_steps : Nat)
    (outputs : Option Dict) : WorkflowRunRecord :=
  { run with
    status := RunStatus.succeeded
    outputs := outputs
    elapsed_time := clk - start_at
    total_tokens := total_tokens
    total_steps := total_steps
    finished_at := some clk }

/-- Source: `_workflow_run_failed` — the run row mutation + commit (used for
both `FAILED` and `STOPPED`). -/
def workflow_run_failed (run : WorkflowRunRecord) (clk : Nat)
    (start_at : Nat) (total_tokens : Int) (total_steps : Nat)
    (status : RunStatus) (error : String) : WorkflowRunRecord :=
  { run with
    status := status
    error := some error
    elapsed_time := clk - start_at
    total_tokens := total_tokens
    total_steps := total_steps
    finished_at := some clk }

/-- Source: `_handle_workflow_finished`.  Loads the run by the task state's
run id; when absent returns `None` with nothing modified.  Stop → `STOPPED`
with the fixed message; WorkflowFailed → `FAILED` with the event's error;
WorkflowSucceeded → `SUCCEEDED` with outputs taken from the node-execution
row referenced by `latest_node_execution_info` (raw stored column; an absent
pointer yields null outputs, an absent row raises: `none`).  The updated run
id is written back to task state. -/
def handle_workflow_finished (clk : Nat) (ts : TaskState) (db : Database)
    (e : Event) :
    Option (Option WorkflowRunRecord × TaskState × Database) :=
  match findRun db ts.workflow_run_id with
  | none => some (none, ts, db)
  | some workflow_run =>
      match e with
      | .stop =>
          let run' := workflow_run_failed workflow_run clk ts.start_at
            ts.total_tokens ts.total_steps RunStatus.stopped
            "Workflow stopped."
          some (some run', { ts with workflow_run_id := run'.id },
            updateRun db run')
      | .workflowFailed error =>
          let run' := workflow_run_failed workflow_run clk ts.start_at
            ts.total_tokens ts.total_steps RunStatus.failed error
          some (some run', { ts with workflow_run_id := run'.id },
            updateRun db run')
      | .workflowSucceeded =>
          let outputs? : Option (Option Dict) :=
            match ts.latest_node_execution_info with
            | some info =>
                match findNodeExec db info.workflow_node_execution_id with
                | none => none
                | some wne => some wne.outputs
            | none => some none
          match outputs? with
          | none => none
          | some outputs =>
              let run' := workflow_run_success workflow_run clk ts.start_at
                ts.total_tokens ts.total_steps outputs
              some (some run', { ts with workflow_run_id := run'.id },
                updateRun db run')
      | _ => none

/-! ## Event-stream processing

One logical worker consumes the ordered event stream (spec §5); each
processed event advances the abstract clock by one tick. -/

/-- In-flight state of one workflow invocation: task state, repository, and
the clock. -/
structure Config where
  ts : TaskState
  db : Database
  clock : Nat

/-- Dispatch of one queue event to the matching handler (mirroring the
`isinstance` dispatch of the surrounding task pipeline); `none` models a
raised exception. -/
def step (cfg : Config) (e : Event) : Option Config :=
  match e with
  | .nodeStarted ev =>
      match handle_node_start cfg.clock cfg.ts cfg.db ev with
      | none => none
      | some (_, ts, db) => some { ts := ts, db := db, clock := cfg.clock + 1 }
  | .nodeSucceeded _ | .nodeFailed _ =>
      match handle_node_finished cfg.clock cfg.ts cfg.db e with
      | none => none
      | some (_, ts, db) => some { ts := ts, db := db, clock := cfg.clock + 1 }
  | .stop | .workflowSucceeded | .workflowFailed _ =>
      match handle_workflow_finished cfg.clock cfg.ts cfg.db e with
      | none => none
      | some (_, ts, db) => some { ts := ts, db := db, clock := cfg.clock + 1 }

/-- Sequential consumption of an event stream; `none` as soon as a handler
raises. -/
def processEvents (cfg : Config) : List Event → Option Config
  | [] => some cfg
  | e :: rest =>
      match step cfg e with
      | none => none
      | some cfg' => processEvents cfg' rest

/-! ## Fixtures for concrete evaluations -/

/-- An empty repository. -/
def emptyDb : Database := { runs := [], nodeExecs := fun _ => none, nextId := 0 }

/-- A fresh task state (all aggregates zero, nothing tracked). -/
def ts0 : TaskState :=
  { start_at := 0, workflow_run_id := 0, total_tokens := 0, total_steps := 0,
    ran_node_execution_infos := [], latest_node_execution_info := none,
    metadata_usage := none }

/-- A run row in `RUNNING` state with id 1, as `_init_workflow_run` creates
it. -/
def demoRun : WorkflowRunRecord :=
  { id := 1, tenant_id := "t", app_id := "a", sequence_number := 1,
    workflow_id := "w", type := "workflow", triggered_from := "app-run",
    version := "1", graph := none, inputs := [], status := RunStatus.running,
    outputs := none, error := none, elapsed_time := 0, total_tokens := 0,
    total_steps := 0, created_by_role := "account", created_by := "u",
    created_at := 0, finished_at := none }

/-- A repository holding just `demoRun`. -/
def demoDb : Database :=
  { runs := [demoRun], nodeExecs := fun _ => none, nextId := 10 }

/-- A config at the point right after workflow start for `demoRun`. -/
def demoCfg : Config :=
  { ts := { ts0 with workflow_run_id := 1 }, db := demoDb, clock := 0 }

/-! ## Claim theorems -/

/-- C9: file discovery over an outputs map extracts exactly one descriptor
for a value that is a file-tagged map (discriminator `'__variant'` equal to
`"FileVar"`), one descriptor per file-tagged element in list order for a
list value, and nothing for any other value; an absent outputs map yields no
files.  `claimFilesOfValue` is that per-value specification; the theorem
says the source's discovery is its concatenation over the outputs entries. -/
theorem c9_file_discovery :
    (∀ es : Dict, fetch_files_from_node_outputs (some es) =
      es.flatMap (fun kv => claimFilesOfValue kv.2)) ∧
    fetch_files_from_node_outputs none = [] := by
  constructor
  · intro es
    cases es with
    | nil => rfl
    | cons kv rest =>
        have hfun : (fun kv : String × Value => fetch_files_from_variable_value kv.2)
            = fun kv : String × Value => claimFilesOfValue kv.2 :=
          funext fun kv => fetch_files_from_variable_value_eq kv.2
        simp only [fetch_files_from_node_outputs, List.isEmpty_cons,
          Bool.false_eq_true, if_false, hfun]
  · rfl

/-- C8: when the run referenced by the task state's `workflow_run_id` is not
in the repository, `_handle_workflow_finished` returns `None` for any
terminal event, raising nothing and leaving task state and repository
untouched. -/
theorem c8_missing_run_is_noop (clk : Nat) (ts : TaskState) (db : Database)
    (e : Event)
    (hterm : e = Event.stop ∨ e = Event.workflowSucceeded ∨
      ∃ err, e = Event.workflowFailed err)
    (habsent : findRun db ts.workflow_run_id = none) :
    handle_workflow_finished clk ts db e = some (none, ts, db) := by
  unfold handle_workflow_finished
  rw [habsent]

/-- Witness for C8: stopping an invocation whose run id 0 is not in the
empty repository is a no-op returning `None`. -/
theorem c8_witness :
    handle_workflow_finished 0 ts0 emptyDb Event.stop = some (none, ts0, emptyDb) :=
  c8_missing_run_is_noop 0 ts0 emptyDb Event.stop (Or.inl rfl) rfl

/-- C10: `_handle_node_finished` on a NodeSucceeded or NodeFailed event whose
node id has no bookkeeping entry in task state fails with a lookup error
(`KeyError`, modelled as `none`) instead of returning a record, and a normal
return implies the node id was previously registered (started). -/
theorem c10_finish_requires_start (clk : Nat) (ts : TaskState) (db : Database) :
    (∀ ev : NodeSucceededEvent,
      assocGet? ts.ran_node_execution_infos ev.node_id = none →
      handle_node_finished clk ts db (Event.nodeSucceeded ev) = none) ∧
    (∀ ev : NodeFailedEvent,
      assocGet? ts.ran_node_execution_infos ev.node_id = none →
      handle_node_finished clk ts db (Event.nodeFailed ev) = none) ∧
    (∀ e r, handle_node_finished clk ts db e = some r →
      ∃ nid, (assocGet? ts.ran_node_execution_infos nid).isSome = true ∧
        ((∃ ev, e = Event.nodeSucceeded ev ∧ ev.node_id = nid) ∨
         (∃ ev, e = Event.nodeFailed ev ∧ ev.node_id = nid))) := by
  refine ⟨?_, ?_, ?_⟩
  · intro ev h
    simp [handle_node_finished, h]
  · intro ev h
    simp [handle_node_finished, h]
  · intro e r h
    cases e with
    | nodeSucceeded ev =>
        refine ⟨ev.node_id, ?_, Or.inl ⟨ev, rfl, rfl⟩⟩
        simp only [handle_node_finished] at h
        cases hl : assocGet? ts.ran_node_execution_infos ev.node_id with
        | none => rw [hl] at h; exact absurd h (by simp)
        | some _ => simp [hl]
    | nodeFailed ev =>
        refine ⟨ev.node_id, ?_, Or.inr ⟨ev, rfl, rfl⟩⟩
        simp only [handle_node_finished] at h
        cases hl : assocGet? ts.ran_node_execution_infos ev.node_id with
        | none => rw [hl] at h; exact absurd h (by simp)
        | some _ => simp [hl]
    | nodeStarted ev => exact absurd h (by simp [handle_node_finished])
    | stop => exact absurd h (by simp [handle_node_finished])
    | workflowSucceeded => exact absurd h (by simp [handle_node_finished])
    | workflowFailed err => exact absurd h (by simp [handle_node_finished])

/-- Witness for C10: finishing node `"A"` in a fresh task state (no start
processed) raises. -/
theorem c10_witness :
    handle_node_finished 0 ts0 emptyDb
      (Event.nodeSucceeded
        { node_id := "A", inputs := none, process_data := none,
          outputs := none, execution_metadata := none }) = none :=
  (c10_finish_requires_start 0 ts0 emptyDb).1
    { node_id := "A", inputs := none, process_data := none, outputs := none,
      execution_metadata := none } rfl

/-! ### Helper lemmas: fold-max and association lists -/

lemma init_le_foldl_max (l : List Nat) (a : Nat) : a ≤ l.foldl max a := by
  induction l generalizing a with
  | nil => exact le_refl a
  | cons x xs ih => exact le_trans (le_max_left a x) (ih (max a x))

lemma mem_le_foldl_max {x : Nat} {l : List Nat} (h : x ∈ l) (a : Nat) :
    x ≤ l.foldl max a := by
  induction l generalizing a with
  | nil => cases h
  | cons y ys ih =>
      rcases List.mem_cons.mp h with rfl | hmem
      · exact le_trans (le_max_right a x) (init_le_foldl_max ys (max a x))
      · exact ih hmem (max a y)

lemma foldl_max_eq_init_or_mem (l : List Nat) (a : Nat) :
    l.foldl max a = a ∨ l.foldl max a ∈ l := by
  induction l generalizing a with
  | nil => exact Or.inl rfl
  | cons x xs ih =>
      rcases ih (max a x) with h | h
      · rcases max_choice a x with hm | hm
        · exact Or.inl (by rw [List.foldl_cons, h, hm])
        · exact Or.inr (by rw [List.foldl_cons, h, hm]; exact List.mem_cons_self x xs)
      · exact Or.inr (List.mem_cons_of_mem x h)

lemma assocGet_insert_self {α : Type} (l : List (String × α)) (k : String) (v : α) :
    assocGet? (assocInsert l k v) k = some v := by
  induction l with
  | nil => simp [assocInsert, assocGet?]
  | cons kv rest ih =>
      by_cases h : kv.1 = k
      · simp [assocInsert, assocGet?, h]
      · have hb : (kv.1 == k) = false := beq_eq_false_iff_ne.mpr h
        simp only [assocInsert]
        rw [show (kv.1, kv.2) = kv from rfl] at *
        simp only [hb, Bool.false_eq_true, if_false]
        simpa [assocGet?, List.find?_cons, hb] using ih

lemma assocGet_insert_ne {α : Type} (l : List (String × α)) (k k' : String)
    (v : α) (h : k' ≠ k) :
    assocGet? (assocInsert l k v) k' = assocGet? l k' := by
  induction l with
  | nil =>
      simp [assocInsert, assocGet?, beq_eq_false_iff_ne.mpr (fun he => h he.symm)]
  | cons kv rest ih =>
      by_cases hk : kv.1 = k
      · have : (kv.1 == k') = false := by
          apply beq_eq_false_iff_ne.mpr
          rw [hk]; exact fun he => h he.symm
        simp [assocInsert, assocGet?, hk, beq_eq_false_iff_ne.mpr (fun he => h he.symm), this]
      · have hb : (kv.1 == k) = false := beq_eq_false_iff_ne.mpr hk
        simp only [assocInsert, hb, Bool.false_eq_true, if_false]
        by_cases hk' : kv.1 = k'
        · simp [assocGet?, hk']
        · have hb' : (kv.1 == k') = false := beq_eq_false_iff_ne.mpr hk'
          simp only [assocGet?, List.find?_cons, hb']
          simpa [assocGet?] using ih

lemma assocGet_insert_isSome {α : Type} (l : List (String × α)) (k k' : String)
    (v : α) (h : (assocGet? l k').isSome = true) :
    (assocGet? (assocInsert l k v) k').isSome = true := by
  by_cases hk : k' = k
  · rw [hk, assocGet_insert_self]; rfl
  · rw [assocGet_insert_ne l k k' v hk]; exact h

lemma mergeInputs_get_of_not_sys (ui : Dict) (si : List (String × Value))
    (k : String) (h : ∀ p ∈ si, k ≠ "sys." ++ p.1) :
    assocGet? (mergeInputs ui si) k = assocGet? ui k := by
  unfold mergeInputs
  induction si generalizing ui with
  | nil => rfl
  | cons p rest ih =>
      rw [List.foldl_cons]
      rw [ih (assocInsert ui ("sys." ++ p.1) p.2)
        (fun q hq => h q (List.mem_cons_of_mem p hq))]
      exact assocGet_insert_ne ui ("sys." ++ p.1) k p.2
        (h p (List.mem_cons_self p rest))

lemma foldl_insert_isSome (si : List (String × Value)) (acc : Dict)
    (k : String) (h : (assocGet? acc k).isSome = true) :
    (assocGet? (si.foldl
      (fun acc kv => assocInsert acc ("sys." ++ kv.1) kv.2) acc) k).isSome = true := by
  induction si generalizing acc with
  | nil => exact h
  | cons p rest ih =>
      rw [List.foldl_cons]
      exact ih (assocInsert acc ("sys." ++ p.1) p.2)
        (assocGet_insert_isSome acc ("sys." ++ p.1) k p.2 h)

lemma mergeInputs_sys_isSome (ui : Dict) (si : List (String × Value))
    (p : String × Value) :
    p ∈ si → (assocGet? (mergeInputs ui si) ("sys." ++ p.1)).isSome = true := by
  induction si generalizing ui with
  | nil => intro h; cases h
  | cons q rest ih =>
      intro h
      rcases List.mem_cons.mp h with rfl | hmem
      · show (assocGet? (rest.foldl
            (fun acc kv => assocInsert acc ("sys." ++ kv.1) kv.2)
            (assocInsert ui ("sys." ++ p.1) p.2)) ("sys." ++ p.1)).isSome = true
        exact foldl_insert_isSome rest (assocInsert ui ("sys." ++ p.1) p.2)
          ("sys." ++ p.1) (by rw [assocGet_insert_self]; rfl)
      · exact ih (assocInsert ui ("sys." ++ q.1) q.2) hmem

/-- C3: `_handle_workflow_start` assigns the new run a `sequence_number`
that strictly exceeds every existing sequence number in the same
`(tenant, app)` scope, equals some existing one plus 1 when the scope is
non-empty, and equals 1 when no run exists yet in the scope. -/
theorem c3_sequence_number (clk : Nat) (ts : TaskState) (db : Database)
    (wf : WorkflowInfo) (dbg : Bool) (user : User) (ui : Dict)
    (si : List (String × Value)) :
    (∀ r ∈ scopedRuns db wf.tenant_id wf.app_id,
      r.sequence_number <
        (handle_workflow_start clk ts db wf dbg user ui si).1.sequence_number) ∧
    (scopedRuns db wf.tenant_id wf.app_id ≠ [] →
      ∃ r ∈ scopedRuns db wf.tenant_id wf.app_id,
        (handle_workflow_start clk ts db wf dbg user ui si).1.sequence_number =
          r.sequence_number + 1) ∧
    (scopedRuns db wf.tenant_id wf.app_id = [] →
      (handle_workflow_start clk ts db wf dbg user ui si).1.sequence_number = 1) := by
  have hseq : (handle_workflow_start clk ts db wf dbg user ui si).1.sequence_number
      = maxSequence db wf.tenant_id wf.app_id + 1 := rfl
  refine ⟨?_, ?_, ?_⟩
  · intro r hr
    rw [hseq]
    have : r.sequence_number ≤ maxSequence db wf.tenant_id wf.app_id :=
      mem_le_foldl_max (List.mem_map_of_mem (fun r => r.sequence_number) hr) 0
    omega
  · intro hne
    rw [hseq]
    rcases foldl_max_eq_init_or_mem
        ((scopedRuns db wf.tenant_id wf.app_id).map (fun r => r.sequence_number)) 0 with
      h0 | hmem
    · rcases List.exists_mem_of_ne_nil _ hne with ⟨r, hr⟩
      refine ⟨r, hr, ?_⟩
      have h1 : r.sequence_number ≤ maxSequence db wf.tenant_id wf.app_id :=
        mem_le_foldl_max (List.mem_map_of_mem (fun r => r.sequence_number) hr) 0
      have h2 : maxSequence db wf.tenant_id wf.app_id = 0 := h0
      omega
    · rcases List.mem_map.mp hmem with ⟨r, hr, hval⟩
      exact ⟨r, hr, by rw [show maxSequence db wf.tenant_id wf.app_id =
        r.sequence_number from hval.symm]⟩
  · intro hempty
    rw [hseq]
    unfold maxSequence
    rw [hempty]
    rfl

/-- Witness for C3: the first run created in the scope of `demoDb`'s tenant
`"t"` / app `"a2"` (no existing run there) gets sequence number 1. -/
theorem c3_witness :
    (handle_workflow_start 0 ts0 demoDb
      { id := "w2", tenant_id := "t", app_id := "a2", type := "workflow",
        version := "1", graph := none }
      false { id := "u", is_account := true } [] []).1.sequence_number = 1 :=
  (c3_sequence_number 0 ts0 demoDb
    { id := "w2", tenant_id := "t", app_id := "a2", type := "workflow",
      version := "1", graph := none }
    false { id := "u", is_account := true } [] []).2.2 rfl

/-- C4 counterexample: the claim "no user-supplied key's value is overwritten
by a system input" is false as stated — a user who names an input literally
`"sys.query"` collides with the namespaced system key and loses its value in
the merged map. -/
theorem c4_counterexample :
    assocGet? (mergeInputs [("sys.query", Value.str "mine")]
        [("query", Value.str "theirs")]) "sys.query"
      = some (Value.str "theirs") ∧
    assocGet? [("sys.query", Value.str "mine")] "sys.query"
      = some (Value.str "mine") ∧
    Value.str "theirs" ≠ Value.str "mine" := by
  refine ⟨rfl, rfl, ?_⟩
  intro h
  injection h with h'
  exact absurd h' (by decide)

/-- C4 (amended): every system input is stored in the merged map under its
namespaced key `"sys." ++ name`, and every user key *outside the namespaced
image of the system inputs* keeps its user-supplied value; a user key of the
form `"sys." ++ (a system input name)` is the one family that can be
overwritten. -/
theorem c4_amended (clk : Nat) (ts : TaskState) (db : Database)
    (wf : WorkflowInfo) (dbg : Bool) (user : User) (ui : Dict)
    (si : List (String × Value)) :
    (∀ k, (∀ p ∈ si, k ≠ "sys." ++ p.1) →
      assocGet? (handle_workflow_start clk ts db wf dbg user ui si).1.inputs k
        = assocGet? ui k) ∧
    (∀ p ∈ si,
      (assocGet? (handle_workflow_start clk ts db wf dbg user ui si).1.inputs
        ("sys." ++ p.1)).isSome = true) := by
  have hinp : (handle_workflow_start clk ts db wf dbg user ui si).1.inputs
      = mergeInputs ui si := rfl
  constructor
  · intro k hk
    rw [hinp]
    exact mergeInputs_get_of_not_sys ui si k hk
  · intro p hp
    rw [hinp]
    exact mergeInputs_sys_isSome ui si p hp

/-- Witness for C4 (amended): with user input `"name"` and system input
`"query"`, the merged inputs keep the user's `"name"` value and contain the
namespaced `"sys.query"` key. -/
theorem c4_amended_witness :
    assocGet? (handle_workflow_start 0 ts0 demoDb
      { id := "w", tenant_id := "t", app_id := "a", type := "workflow",
        version := "1", graph := none }
      false { id := "u", is_account := true }
      [("name", Value.str "n")] [("query", Value.str "q")]).1.inputs "name"
      = assocGet? [("name", Value.str "n")] "name" :=
  (c4_amended 0 ts0 demoDb
    { id := "w", tenant_id := "t", app_id := "a", type := "workflow",
      version := "1", graph := none }
    false { id := "u", is_account := true }
    [("name", Value.str "n")] [("query", Value.str "q")]).1 "name"
    (by intro p hp; simp only [List.mem_singleton] at hp; subst hp; decide)

/-! ### Step-effect lemmas for the aggregate counters -/

/-- Recognizer for NodeStarted events. -/
def isNodeStartedEvent : Event → Bool
  | .nodeStarted _ => true
  | _ => false

/-- Amount the machine adds to `total_tokens` while processing one event. -/
def eventTokenContribution : Event → Int
  | .nodeSucceeded ev => tokenIncrement ev.execution_metadata
  | _ => 0

/-- Claim-side token contribution, following the claim's words: the value of
the `"total_tokens"` field of `execution_metadata` for a NodeSucceeded event
that carries one, and zero for events without that field and for all other
event kinds. -/
def claimTokenOfEvent : Event → Int
  | .nodeSucceeded ev =>
      match ev.execution_metadata with
      | none => 0
      | some m => (assocGet? m "total_tokens").getD 0
  | _ => 0

lemma tokenIncrement_eq_claim (e : Event) :
    eventTokenContribution e = claimTokenOfEvent e := by
  cases e with
  | nodeSucceeded ev =>
      show tokenIncrement ev.execution_metadata = _
      cases hm : ev.execution_metadata with
      | none => simp [tokenIncrement, claimTokenOfEvent, hm]
      | some m =>
          cases m with
          | nil => simp [tokenIncrement, claimTokenOfEvent, hm, assocGet?]
          | cons kv rest =>
              simp only [tokenIncrement, claimTokenOfEvent, hm, List.isEmpty_cons,
                Bool.false_eq_true, if_false]
              cases hg : assocGet? (kv :: rest) "total_tokens" with
              | none => simp
              | some t => by_cases ht : t = 0 <;> simp [ht]
  | nodeStarted ev => rfl
  | nodeFailed ev => rfl
  | stop => rfl
  | workflowSucceeded => rfl
  | workflowFailed err => rfl

lemma handle_node_start_spec {clk : Nat} {ts : TaskState} {db : Database}
    {ev : NodeStartedEvent} {r : NodeExecutionRecord} {ts' : TaskState}
    {db' : Database}
    (h : handle_node_start clk ts db ev = some (r, ts', db')) :
    ts'.total_steps = ts.total_steps + 1 ∧
    ts'.total_tokens = ts.total_tokens ∧
    ts'.metadata_usage = ts.metadata_usage ∧
    ts'.start_at = ts.start_at ∧
    ts'.workflow_run_id = ts.workflow_run_id ∧
    ts'.ran_node_execution_infos =
      assocInsert ts.ran_node_execution_infos ev.node_id
        ⟨db.nextId, ev.node_type, clk⟩ ∧
    ts'.latest_node_execution_info = some ⟨db.nextId, ev.node_type, clk⟩ ∧
    db'.runs = db.runs ∧
    db'.nextId = db.nextId + 1 ∧
    db'.nodeExecs = (fun j => if j == db.nextId then some r else db.nodeExecs j) ∧
    r.node_type = ev.node_type ∧
    r.id = db.nextId := by
  unfold handle_node_start at h
  cases hfr : findRun db ts.workflow_run_id with
  | none => rw [hfr] at h; cases h
  | some wr =>
      rw [hfr] at h
      simp only [Option.some.injEq, Prod.mk.injEq] at h
      obtain ⟨hr, hts, hdb⟩ := h
      subst hr; subst hts; subst hdb
      refine ⟨rfl, rfl, rfl, rfl, rfl, rfl, rfl, rfl, rfl, rfl, rfl, rfl⟩

lemma handle_node_finished_spec {clk : Nat} {ts : TaskState} {db : Database}
    {e : Event} {r : NodeExecutionRecord} {ts' : TaskState} {db' : Database}
    (h : handle_node_finished clk ts db e = some (r, ts', db')) :
    ts'.total_steps = ts.total_steps ∧
    ts'.start_at = ts.start_at ∧
    ts'.workflow_run_id = ts.workflow_run_id ∧
    ts'.ran_node_execution_infos = ts.ran_node_execution_infos ∧
    ts'.latest_node_execution_info = ts.latest_node_execution_info ∧
    ts'.total_tokens = ts.total_tokens + eventTokenContribution e ∧
    db'.runs = db.runs ∧
    db'.nextId = db.nextId := by
  cases e with
  | nodeSucceeded ev =>
      simp only [handle_node_finished] at h
      split at h
      · cases h
      · split at h
        · cases h
        · split at h
          · split at h
            · cases h
            · simp only [Option.some.injEq, Prod.mk.injEq] at h
              obtain ⟨hr, hts, hdb⟩ := h
              subst hr; subst hts; subst hdb
              exact ⟨rfl, rfl, rfl, rfl, rfl, rfl, rfl, rfl⟩
          · simp only [Option.some.injEq, Prod.mk.injEq] at h
            obtain ⟨hr, hts, hdb⟩ := h
            subst hr; subst hts; subst hdb
            exact ⟨rfl, rfl, rfl, rfl, rfl, rfl, rfl, rfl⟩
  | nodeFailed ev =>
      simp only [handle_node_finished] at h
      split at h
      · cases h
      · split at h
        · cases h
        · simp only [Option.some.injEq, Prod.mk.injEq] at h
          obtain ⟨hr, hts, hdb⟩ := h
          subst hr; subst hts; subst hdb
          refine ⟨rfl, rfl, rfl, rfl, rfl, ?_, rfl, rfl⟩
          show ts.total_tokens = ts.total_tokens + 0
          omega
  | nodeStarted ev => cases h
  | stop => cases h
  | workflowSucceeded => cases h
  | workflowFailed err => cases h

lemma handle_workflow_finished_spec {clk : Nat} {ts : TaskState}
    {db : Database} {e : Event} {res : Option WorkflowRunRecord}
    {ts' : TaskState} {db' : Database}
    (h : handle_workflow_finished clk ts db e = some (res, ts', db')) :
    ts'.total_steps = ts.total_steps ∧
    ts'.total_tokens = ts.total_tokens ∧
    ts'.start_at = ts.start_at ∧
    ts'.ran_node_execution_infos = ts.ran_node_execution_infos ∧
    ts'.latest_node_execution_info = ts.latest_node_execution_info ∧
    ts'.metadata_usage = ts.metadata_usage ∧
    db'.nodeExecs = db.nodeExecs ∧
    db'.nextId = db.nextId := by
  unfold handle_workflow_finished at h
  cases hfr : findRun db ts.workflow_run_id with
  | none =>
      rw [hfr] at h
      simp only [Option.some.injEq, Prod.mk.injEq] at h
      obtain ⟨-, hts, hdb⟩ := h
      subst hts; subst hdb
      exact ⟨rfl, rfl, rfl, rfl, rfl, rfl, rfl, rfl⟩
  | some wr =>
      rw [hfr] at h
      cases e with
      | stop =>
          simp only [Option.some.injEq, Prod.mk.injEq] at h
          obtain ⟨-, hts, hdb⟩ := h
          subst hts; subst hdb
          exact ⟨rfl, rfl, rfl, rfl, rfl, rfl, rfl, rfl⟩
      | workflowFailed err =>
          simp only [Option.some.injEq, Prod.mk.injEq] at h
          obtain ⟨-, hts, hdb⟩ := h
          subst hts; subst hdb
          exact ⟨rfl, rfl, rfl, rfl, rfl, rfl, rfl, rfl⟩
      | workflowSucceeded =>
          cases ho : (match ts.latest_node_execution_info with
            | some info =>
                match findNodeExec db info.workflow_node_execution_id with
                | none => none
                | some wne => some wne.outputs
            | none => some none : Option (Option Dict)) with
          | none => rw [ho] at h; cases h
          | some outs =>
              rw [ho] at h
              simp only [Option.some.injEq, Prod.mk.injEq] at h
              obtain ⟨-, hts, hdb⟩ := h
              subst hts; subst hdb
              exact ⟨rfl, rfl, rfl, rfl, rfl, rfl, rfl, rfl⟩
      | nodeStarted ev => cases h
      | nodeSucceeded ev => cases h
      | nodeFailed ev => cases h

lemma step_counter_effects {cfg cfg' : Config} {e : Event}
    (h : step cfg e = some cfg') :
    cfg'.ts.total_steps =
      cfg.ts.total_steps + (if isNodeStartedEvent e then 1 else 0) ∧
    cfg'.ts.total_tokens = cfg.ts.total_tokens + eventTokenContribution e := by
  cases e with
  | nodeStarted ev =>
      simp only [step] at h
      cases hs : handle_node_start cfg.clock cfg.ts cfg.db ev with
      | none => rw [hs] at h; cases h
      | some r =>
          obtain ⟨rec0, ts1, db1⟩ := r
          rw [hs] at h
          simp only [Option.some.injEq] at h
          subst h
          obtain ⟨h1, h2, -⟩ := handle_node_start_spec hs
          exact ⟨h1, by simpa [eventTokenContribution] using h2⟩
  | nodeSucceeded ev =>
      simp only [step] at h
      cases hs : handle_node_finished cfg.clock cfg.ts cfg.db (Event.nodeSucceeded ev) with
      | none => rw [hs] at h; cases h
      | some r =>
          obtain ⟨rec0, ts1, db1⟩ := r
          rw [hs] at h
          simp only [Option.some.injEq] at h
          subst h
          obtain ⟨h1, -, -, -, -, h2, -⟩ := handle_node_finished_spec hs
          exact ⟨by simpa using h1, h2⟩
  | nodeFailed ev =>
      simp only [step] at h
      cases hs : handle_node_finished cfg.clock cfg.ts cfg.db (Event.nodeFailed ev) with
      | none => rw [hs] at h; cases h
      | some r =>
          obtain ⟨rec0, ts1, db1⟩ := r
          rw [hs] at h
          simp only [Option.some.injEq] at h
          subst h
          obtain ⟨h1, -, -, -, -, h2, -⟩ := handle_node_finished_spec hs
          exact ⟨by simpa using h1, h2⟩
  | stop =>
      simp only [step] at h
      cases hs : handle_workflow_finished cfg.clock cfg.ts cfg.db Event.stop with
      | none => rw [hs] at h; cases h
      | some r =>
          obtain ⟨res0, ts1, db1⟩ := r
          rw [hs] at h
          simp only [Option.some.injEq] at h
          subst h
          obtain ⟨h1, h2, -⟩ := handle_workflow_finished_spec hs
          exact ⟨by simpa using h1, by simpa [eventTokenContribution] using h2⟩
  | workflowSucceeded =>
      simp only [step] at h
      cases hs : handle_workflow_finished cfg.clock cfg.ts cfg.db Event.workflowSucceeded with
      | none => rw [hs] at h; cases h
      | some r =>
          obtain ⟨res0, ts1, db1⟩ := r
          rw [hs] at h
          simp only [Option.some.injEq] at h
          subst h
          obtain ⟨h1, h2, -⟩ := handle_workflow_finished_spec hs
          exact ⟨by simpa using h1, by simpa [eventTokenContribution] using h2⟩
  | workflowFailed err =>
      simp only [step] at h
      cases hs : handle_workflow_finished cfg.clock cfg.ts cfg.db (Event.workflowFailed err) with
      | none => rw [hs] at h; cases h
      | some r =>
          obtain ⟨res0, ts1, db1⟩ := r
          rw [hs] at h
          simp only [Option.some.injEq] at h
          subst h
          obtain ⟨h1, h2, -⟩ := handle_workflow_finished_spec hs
          exact ⟨by simpa using h1, by simpa [eventTokenContribution] using h2⟩

/-- C5: after successfully processing any sequence of events, task state's
`total_steps` has grown by exactly the number of NodeStarted events in the
sequence — every activation counts, also repeated activations of the same
node id (node ids play no role in the counter). -/
theorem c5_total_steps (evs : List Event) (cfg cfg' : Config)
    (h : processEvents cfg evs = some cfg') :
    cfg'.ts.total_steps = cfg.ts.total_steps + evs.countP isNodeStartedEvent := by
  induction evs generalizing cfg with
  | nil =>
      simp only [processEvents, Option.some.injEq] at h
      subst h
      simp
  | cons e rest ih =>
      simp only [processEvents] at h
      cases hs : step cfg e with
      | none => rw [hs] at h; cases h
      | some cfg1 =>
          rw [hs] at h
          have hrest := ih cfg1 h
          have hstep := (step_counter_effects hs).1
          rw [List.countP_cons]
          cases he : isNodeStartedEvent e <;> simp [he] at hstep ⊢ <;> omega

/-- C6: after successfully processing any sequence of events, task state's
`total_tokens` has grown by exactly the sum of the `"total_tokens"` field of
`execution_metadata` over the NodeSucceeded events that carried one
(`claimTokenOfEvent`); NodeSucceeded events without the field and NodeFailed
events contribute zero. -/
theorem c6_total_tokens (evs : List Event) (cfg cfg' : Config)
    (h : processEvents cfg evs = some cfg') :
    cfg'.ts.total_tokens =
      cfg.ts.total_tokens + (evs.map claimTokenOfEvent).sum := by
  induction evs generalizing cfg with
  | nil =>
      simp only [processEvents, Option.some.injEq] at h
      subst h
      simp
  | cons e rest ih =>
      simp only [processEvents] at h
      cases hs : step cfg e with
      | none => rw [hs] at h; cases h
      | some cfg1 =>
          rw [hs] at h
          have hrest := ih cfg1 h
          have hstep := (step_counter_effects hs).2
          rw [tokenIncrement_eq_claim] at hstep
          rw [List.map_cons, List.sum_cons]
          omega

/-- Demo trace: node `"A"` runs twice (second activation overwrites the
first's bookkeeping), succeeds once with 5 reported tokens, fails once, and
the run is stopped. -/
def demoTrace : List Event :=
  [Event.nodeStarted
    { node_id := "A", node_type := "code", title := "A", node_run_index := 1,
      predecessor_node_id := none },
   Event.nodeSucceeded
    { node_id := "A", inputs := none, process_data := none,
      outputs := some [("x", Value.str "X")],
      execution_metadata := some [("total_tokens", 5)] },
   Event.nodeStarted
    { node_id := "A", node_type := "code", title := "A", node_run_index := 2,
      predecessor_node_id := none },
   Event.nodeFailed
    { node_id := "A", error := "boom", inputs := none, process_data := none,
      outputs := none },
   Event.stop]

/-- Witness for C5: `demoTrace` contains two NodeStarted events for the same
node id `"A"`; processing succeeds and `total_steps` grows by 2. -/
theorem c5_witness :
    ((processEvents demoCfg demoTrace).getD demoCfg).ts.total_steps
      = demoCfg.ts.total_steps + demoTrace.countP isNodeStartedEvent :=
  c5_total_steps demoTrace demoCfg _ rfl

/-- Witness for C6: in `demoTrace` only the NodeSucceeded event carries a
token count (5); the failed activation contributes zero. -/
theorem c6_witness :
    ((processEvents demoCfg demoTrace).getD demoCfg).ts.total_tokens
      = demoCfg.ts.total_tokens + (demoTrace.map claimTokenOfEvent).sum :=
  c6_total_tokens demoTrace demoCfg _ rfl

/-! ### Run-status transition machinery (C2) -/

/-- Recognizer for the three terminal events. -/
def isTerminalEvent : Event → Bool
  | .stop => true
  | .workflowSucceeded => true
  | .workflowFailed _ => true
  | _ => false

/-- Terminal run statuses. -/
def isTerminalStatus : RunStatus → Bool
  | .succeeded => true
  | .failed => true
  | .stopped => true
  | .running => false

lemma processEvents_append (cfg : Config) (l1 l2 : List Event) :
    processEvents cfg (l1 ++ l2) =
      (processEvents cfg l1).bind (fun c => processEvents c l2) := by
  induction l1 generalizing cfg with
  | nil => rfl
  | cons e rest ih =>
      simp only [List.cons_append, processEvents]
      cases hs : step cfg e with
      | none => rfl
      | some c => exact ih c

lemma processEvents_split {l1 l2 : List Event} {cfg cfg' : Config}
    (h : processEvents cfg (l1 ++ l2) = some cfg') :
    ∃ c, processEvents cfg l1 = some c ∧ processEvents c l2 = some cfg' := by
  rw [processEvents_append] at h
  cases hp : processEvents cfg l1 with
  | none => rw [hp] at h; cases h
  | some c => rw [hp] at h; exact ⟨c, rfl, h⟩

lemma processEvents_cons {e : Event} {rest : List Event} {cfg cfg' : Config}
    (h : processEvents cfg (e :: rest) = some cfg') :
    ∃ c, step cfg e = some c ∧ processEvents c rest = some cfg' := by
  simp only [processEvents] at h
  cases hs : step cfg e with
  | none => rw [hs] at h; cases h
  | some c => rw [hs] at h; exact ⟨c, rfl, h⟩

lemma countP_eq_one_split {p : Event → Bool} {l : List Event}
    (h : l.countP p = 1) :
    ∃ l1 x l2, l = l1 ++ x :: l2 ∧ l1.countP p = 0 ∧ p x = true ∧
      l2.countP p = 0 := by
  induction l with
  | nil => simp [List.countP_nil] at h
  | cons a l ih =>
      rw [List.countP_cons] at h
      cases ha : p a with
      | true =>
          refine ⟨[], a, l, rfl, rfl, ha, ?_⟩
          rw [ha] at h
          simp only [if_pos] at h
          omega
      | false =>
          rw [ha] at h
          simp only [Bool.false_eq_true, if_false, Nat.add_zero] at h
          obtain ⟨l1, x, l2, hl, h1, hx, h2⟩ := ih h
          exact ⟨a :: l1, x, l2, by rw [hl, List.cons_append], by
            rw [List.countP_cons, ha]; simpa using h1, hx, h2⟩

lemma find?_run_id {db : Database} {i : Nat} {run : WorkflowRunRecord}
    (h : findRun db i = some run) : run.id = i := by
  have := List.find?_some h
  simpa using this

lemma find?_map_update {l : List WorkflowRunRecord} {i : Nat}
    {run : WorkflowRunRecord}
    (h : l.find? (fun r => r.id == i) = some run) (r' : WorkflowRunRecord)
    (hid : r'.id = i) :
    (l.map (fun r => if r.id == r'.id then r' else r)).find?
      (fun r => r.id == i) = some r' := by
  induction l with
  | nil => cases h
  | cons a l ih =>
      by_cases ha : (a.id == i) = true
      · have hai : a.id = i := by simpa using ha
        have har : (a.id == r'.id) = true := by simp [hai, hid]
        rw [List.map_cons]
        simp only [har, if_true]
        rw [List.find?_cons_of_pos]
        simp [hid]
      · have hnum : a.id ≠ i := by simpa using ha
        have har : (a.id == r'.id) = false := by
          rw [hid]; simpa using hnum
        have h' : l.find? (fun r => r.id == i) = some run := by
          rw [List.find?_cons_of_neg] at h
          · exact h
          · simpa using hnum
        rw [List.map_cons]
        simp only [har, Bool.false_eq_true, if_false]
        rw [List.find?_cons_of_neg]
        · exact ih h'
        · simpa using hnum

lemma findRun_updateRun {db : Database} {i : Nat} {run : WorkflowRunRecord}
    (h : findRun db i = some run) (r' : WorkflowRunRecord) (hid : r'.id = i) :
    findRun (updateRun db r') i = some r' :=
  find?_map_update h r' hid

lemma step_nonterminal_run {cfg cfg' : Config} {e : Event}
    (h : step cfg e = some cfg') (hnt : isTerminalEvent e = false) :
    cfg'.db.runs = cfg.db.runs ∧
    cfg'.ts.workflow_run_id = cfg.ts.workflow_run_id := by
  cases e with
  | nodeStarted ev =>
      simp only [step] at h
      cases hs : handle_node_start cfg.clock cfg.ts cfg.db ev with
      | none => rw [hs] at h; cases h
      | some r =>
          obtain ⟨rec0, ts1, db1⟩ := r
          rw [hs] at h
          simp only [Option.some.injEq] at h
          subst h
          obtain ⟨-, -, -, -, h5, -, -, h8, -, -, -, -⟩ := handle_node_start_spec hs
          exact ⟨h8, h5⟩
  | nodeSucceeded ev =>
      simp only [step] at h
      cases hs : handle_node_finished cfg.clock cfg.ts cfg.db (Event.nodeSucceeded ev) with
      | none => rw [hs] at h; cases h
      | some r =>
          obtain ⟨rec0, ts1, db1⟩ := r
          rw [hs] at h
          simp only [Option.some.injEq] at h
          subst h
          obtain ⟨-, -, h3, -, -, -, h7, -⟩ := handle_node_finished_spec hs
          exact ⟨h7, h3⟩
  | nodeFailed ev =>
      simp only [step] at h
      cases hs : handle_node_finished cfg.clock cfg.ts cfg.db (Event.nodeFailed ev) with
      | none => rw [hs] at h; cases h
      | some r =>
          obtain ⟨rec0, ts1, db1⟩ := r
          rw [hs] at h
          simp only [Option.some.injEq] at h
          subst h
          obtain ⟨-, -, h3, -, -, -, h7, -⟩ := handle_node_finished_spec hs
          exact ⟨h7, h3⟩
  | stop => simp [isTerminalEvent] at hnt
  | workflowSucceeded => simp [isTerminalEvent] at hnt
  | workflowFailed err => simp [isTerminalEvent] at hnt

lemma processEvents_nonterminal_run {evs : List Event} {cfg cfg' : Config}
    (h : processEvents cfg evs = some cfg')
    (hnt : evs.countP isTerminalEvent = 0) :
    cfg'.db.runs = cfg.db.runs ∧
    cfg'.ts.workflow_run_id = cfg.ts.workflow_run_id := by
  induction evs generalizing cfg with
  | nil =>
      simp only [processEvents, Option.some.injEq] at h
      subst h
      exact ⟨rfl, rfl⟩
  | cons e rest ih =>
      obtain ⟨c, hs, hrest⟩ := processEvents_cons h
      rw [List.countP_cons] at hnt
      cases he : isTerminalEvent e with
      | true => rw [he] at hnt; simp only [if_pos] at hnt; omega
      | false =>
          rw [he] at hnt
          simp only [Bool.false_eq_true, if_false, Nat.add_zero] at hnt
          obtain ⟨hr1, hw1⟩ := step_nonterminal_run hs he
          obtain ⟨hr2, hw2⟩ := ih hrest hnt
          exact ⟨hr2.trans hr1, hw2.trans hw1⟩

lemma step_terminal_run {cfg cfg' : Config} {e : Event}
    {run : WorkflowRunRecord}
    (h : step cfg e = some cfg') (ht : isTerminalEvent e = true)
    (hrun : findRun cfg.db cfg.ts.workflow_run_id = some run) :
    ∃ run', cfg'.ts.workflow_run_id = cfg.ts.workflow_run_id ∧
      findRun cfg'.db cfg.ts.workflow_run_id = some run' ∧
      isTerminalStatus run'.status = true ∧
      run'.finished_at = some cfg.clock := by
  have hid := find?_run_id hrun
  cases e with
  | stop =>
      simp only [step] at h
      cases hs : handle_workflow_finished cfg.clock cfg.ts cfg.db Event.stop with
      | none => rw [hs] at h; cases h
      | some r =>
          obtain ⟨res, ts1, db1⟩ := r
          rw [hs] at h
          simp only [Option.some.injEq] at h
          subst h
          unfold handle_workflow_finished at hs
          rw [hrun] at hs
          simp only [Option.some.injEq, Prod.mk.injEq] at hs
          obtain ⟨-, hts1, hdb1⟩ := hs
          subst hts1; subst hdb1
          refine ⟨workflow_run_failed run cfg.clock cfg.ts.start_at
            cfg.ts.total_tokens cfg.ts.total_steps RunStatus.stopped
            "Workflow stopped.", ?_, ?_, rfl, rfl⟩
          · exact hid
          · exact findRun_updateRun hrun _ hid
  | workflowFailed err =>
      simp only [step] at h
      cases hs : handle_workflow_finished cfg.clock cfg.ts cfg.db (Event.workflowFailed err) with
      | none => rw [hs] at h; cases h
      | some r =>
          obtain ⟨res, ts1, db1⟩ := r
          rw [hs] at h
          simp only [Option.some.injEq] at h
          subst h
          unfold handle_workflow_finished at hs
          rw [hrun] at hs
          simp only [Option.some.injEq, Prod.mk.injEq] at hs
          obtain ⟨-, hts1, hdb1⟩ := hs
          subst hts1; subst hdb1
          refine ⟨workflow_run_failed run cfg.clock cfg.ts.start_at
            cfg.ts.total_tokens cfg.ts.total_steps RunStatus.failed err,
            ?_, ?_, rfl, rfl⟩
          · exact hid
          · exact findRun_updateRun hrun _ hid
  | workflowSucceeded =>
      simp only [step] at h
      cases hs : handle_workflow_finished cfg.clock cfg.ts cfg.db Event.workflowSucceeded with
      | none => rw [hs] at h; cases h
      | some r =>
          obtain ⟨res, ts1, db1⟩ := r
          rw [hs] at h
          simp only [Option.some.injEq] at h
          subst h
          unfold handle_workflow_finished at hs
          rw [hrun] at hs
          cases ho : (match cfg.ts.latest_node_execution_info with
            | some info =>
                match findNodeExec cfg.db info.workflow_node_execution_id with
                | none => none
                | some wne => some wne.outputs
            | none => some none : Option (Option Dict)) with
          | none => rw [ho] at hs; cases hs
          | some outs =>
              rw [ho] at hs
              simp only [Option.some.injEq, Prod.mk.injEq] at hs
              obtain ⟨-, hts1, hdb1⟩ := hs
              subst hts1; subst hdb1
              refine ⟨workflow_run_success run cfg.clock cfg.ts.start_at
                cfg.ts.total_tokens cfg.ts.total_steps outs, ?_, ?_, rfl, rfl⟩
              · exact hid
              · exact findRun_updateRun hrun _ hid
  | nodeStarted ev => simp [isTerminalEvent] at ht
  | nodeSucceeded ev => simp [isTerminalEvent] at ht
  | nodeFailed ev => simp [isTerminalEvent] at ht

lemma findRun_congr {db1 db2 : Database} (h : db1.runs = db2.runs) (i : Nat) :
    findRun db1 i = findRun db2 i := by
  unfold findRun
  rw [h]

/-- C2 counterexample: the handlers never check whether the run is already
terminal, so a second terminal event moves a run *out* of a terminal state —
processing WorkflowSucceeded then Stop takes the demo run from `SUCCEEDED`
to `STOPPED`, contradicting "never changes again once terminal" on the
unrestricted event stream. -/
theorem c2_counterexample :
    (findRun ((processEvents demoCfg [Event.workflowSucceeded]).getD demoCfg).db 1).map
        (fun r => r.status) = some RunStatus.succeeded ∧
    (findRun ((processEvents demoCfg
        [Event.workflowSucceeded, Event.stop]).getD demoCfg).db 1).map
        (fun r => r.status) = some RunStatus.stopped :=
  ⟨rfl, rfl⟩

/-- C2 (amended): provided at most one terminal event is delivered for the
run — the spec's at-most-once delivery assumption (§4.1) — a run that starts
`RUNNING` with null `finished_at` stays `RUNNING` exactly while no terminal
event has been processed, becomes terminal with non-null `finished_at` at
the single terminal event, and the run row never changes after that; at
every prefix, `finished_at` is non-null iff the status is terminal. -/
theorem c2_amended (evs : List Event) (cfg cfg' : Config)
    (run : WorkflowRunRecord)
    (hproc : processEvents cfg evs = some cfg')
    (hrun : findRun cfg.db cfg.ts.workflow_run_id = some run)
    (hrunning : run.status = RunStatus.running)
    (hfin : run.finished_at = none)
    (hone : evs.countP isTerminalEvent ≤ 1) :
    ∀ i, i ≤ evs.length →
      ∃ cfgi runi, processEvents cfg (evs.take i) = some cfgi ∧
        cfgi.ts.workflow_run_id = cfg.ts.workflow_run_id ∧
        findRun cfgi.db cfg.ts.workflow_run_id = some runi ∧
        (runi.finished_at ≠ none ↔ isTerminalStatus runi.status = true) ∧
        (runi.status = RunStatus.running ↔
          (evs.take i).countP isTerminalEvent = 0) ∧
        (isTerminalStatus runi.status = true →
          ∀ j, i ≤ j → j ≤ evs.length →
            ∃ cfgj, processEvents cfg (evs.take j) = some cfgj ∧
              findRun cfgj.db cfg.ts.workflow_run_id = some runi) := by
  intro i hi
  have hproc2 := hproc
  rw [← List.take_append_drop i evs] at hproc2
  obtain ⟨cfgi, hpre, hrest⟩ := processEvents_split hproc2
  have hcount : (evs.take i).countP isTerminalEvent +
      (evs.drop i).countP isTerminalEvent = evs.countP isTerminalEvent := by
    rw [← List.countP_append, List.take_append_drop]
  have hc01 : (evs.take i).countP isTerminalEvent = 0 ∨
      (evs.take i).countP isTerminalEvent = 1 := by omega
  rcases hc01 with hc0 | hc1
  · obtain ⟨hruns, hwr⟩ := processEvents_nonterminal_run hpre hc0
    refine ⟨cfgi, run, hpre, hwr, ?_, ?_, ?_, ?_⟩
    · rw [findRun_congr hruns]
      exact hrun
    · simp [hfin, hrunning, isTerminalStatus]
    · simp [hrunning, hc0]
    · rw [hrunning]
      intro hq
      simp [isTerminalStatus] at hq
  · obtain ⟨pre, t, post, hsplit2, hpre0, ht, hpost0⟩ := countP_eq_one_split hc1
    have hpreP := hpre
    rw [hsplit2] at hpreP
    obtain ⟨cp, hp1, hp2⟩ := processEvents_split hpreP
    obtain ⟨ct, hstep, hp3⟩ := processEvents_cons hp2
    obtain ⟨hrunsp, hwrp⟩ := processEvents_nonterminal_run hp1 hpre0
    have hrunp : findRun cp.db cp.ts.workflow_run_id = some run := by
      rw [hwrp, findRun_congr hrunsp]
      exact hrun
    obtain ⟨run', hwr', hfound', hterm', hfin'⟩ := step_terminal_run hstep ht hrunp
    obtain ⟨hrunspost, hwrpost⟩ := processEvents_nonterminal_run hp3 hpost0
    have hfoundi : findRun cfgi.db cfg.ts.workflow_run_id = some run' := by
      rw [findRun_congr hrunspost, ← hwrp]
      exact hfound'
    have hwri : cfgi.ts.workflow_run_id = cfg.ts.workflow_run_id := by
      rw [hwrpost, hwr', hwrp]
    have hne : run'.status ≠ RunStatus.running := by
      intro hq
      rw [hq] at hterm'
      simp [isTerminalStatus] at hterm'
    refine ⟨cfgi, run', hpre, hwri, hfoundi, ?_, ?_, ?_⟩
    · simp [hfin', hterm']
    · exact iff_of_false hne (by omega)
    · intro _ j hij hjle
      have hdrop0 : (evs.drop i).countP isTerminalEvent = 0 := by omega
      have hproc3 := hproc
      rw [← List.take_append_drop j evs] at hproc3
      obtain ⟨cfgj, hpj, -⟩ := processEvents_split hproc3
      have htakej : evs.take j = evs.take i ++ (evs.drop i).take (j - i) := by
        rw [show j = i + (j - i) by omega, List.take_add]
        congr 2
        omega
      have hmid0 : ((evs.drop i).take (j - i)).countP isTerminalEvent = 0 := by
        have hdecomp : ((evs.drop i).take (j - i)).countP isTerminalEvent +
            ((evs.drop i).drop (j - i)).countP isTerminalEvent =
            (evs.drop i).countP isTerminalEvent := by
          rw [← List.countP_append, List.take_append_drop]
        omega
      have hpj2 := hpj
      rw [htakej] at hpj2
      obtain ⟨c0, hc0eq, hcmid⟩ := processEvents_split hpj2
      have hc0cfgi : c0 = cfgi := by
        rw [hpre] at hc0eq
        exact (Option.some.inj hc0eq).symm
      subst hc0cfgi
      obtain ⟨hrunsj, hwrj⟩ := processEvents_nonterminal_run hcmid hmid0
      refine ⟨cfgj, hpj, ?_⟩
      rw [findRun_congr hrunsj]
      exact hfoundi

/-- Witness for C2 (amended): `demoTrace` delivers exactly one terminal
event (the final Stop); instantiated at the full prefix, the demo run is
terminal with non-null `finished_at` there. -/
theorem c2_amended_witness :
    ∃ cfgi runi, processEvents demoCfg (demoTrace.take 5) = some cfgi ∧
      cfgi.ts.workflow_run_id = demoCfg.ts.workflow_run_id ∧
      findRun cfgi.db demoCfg.ts.workflow_run_id = some runi ∧
      (runi.finished_at ≠ none ↔ isTerminalStatus runi.status = true) ∧
      (runi.status = RunStatus.running ↔
        (demoTrace.take 5).countP isTerminalEvent = 0) ∧
      (isTerminalStatus runi.status = true →
        ∀ j, 5 ≤ j → j ≤ demoTrace.length →
          ∃ cfgj, processEvents demoCfg (demoTrace.take j) = some cfgj ∧
            findRun cfgj.db demoCfg.ts.workflow_run_id = some runi) :=
  c2_amended demoTrace demoCfg ((processEvents demoCfg demoTrace).getD demoCfg)
    demoRun rfl rfl rfl rfl (by decide) 5 (by decide)

/-! ### LLM usage snapshot machinery (C7) -/

/-- Claim-side: the `'usage'` entry of a NodeSucceeded event's outputs, with
the source's empty-dict default. -/
def usageFromOutputs (o : Option Dict) : Value :=
  (assocGet? (o.getD []) "usage").getD (Value.dict [])

/-- Claim-side: the node-id → node-type map induced by the NodeStarted
events seen so far (repeated activations overwrite). -/
def typesAfterEvent (types : List (String × String)) : Event →
    List (String × String)
  | .nodeStarted ev => assocInsert types ev.node_id ev.node_type
  | _ => types

/-- Claim-side: effect of one event on the run-level usage snapshot — a
NodeSucceeded event of a node whose (most recently started) type is `"llm"`
overwrites the snapshot with its outputs' `'usage'` entry; every other event
leaves it unchanged. -/
def usageAfterEvent (types : List (String × String)) (usage : Option Value) :
    Event → Option Value
  | .nodeSucceeded ev =>
      if assocGet? types ev.node_id == some "llm"
      then some (usageFromOutputs ev.outputs) else usage
  | _ => usage

/-- Claim-side fold of `usageAfterEvent` over an event sequence: the usage
snapshot after the most recently succeeded LLM-typed node, or the initial
snapshot when no LLM node succeeded. -/
def llmUsageAfter (types : List (String × String)) (usage : Option Value) :
    List Event → Option Value
  | [] => usage
  | e :: rest => llmUsageAfter (typesAfterEvent types e) (usageAfterEvent types usage e) rest

/-- Coupling invariant between the pure node-type map and the machine state:
fresh ids are unallocated, the bookkeeping map mirrors the type map, and
every bookkeeping entry points at a stored row of the registered type. -/
def InvC7 (types : List (String × String)) (ts : TaskState) (db : Database) :
    Prop :=
  (∀ i, db.nextId ≤ i → db.nodeExecs i = none) ∧
  (∀ i r, db.nodeExecs i = some r → r.id = i) ∧
  (∀ nid, (assocGet? ts.ran_node_execution_infos nid).map
      (fun info => info.node_type) = assocGet? types nid) ∧
  (∀ nid info, assocGet? ts.ran_node_execution_infos nid = some info →
    ∃ r, db.nodeExecs info.workflow_node_execution_id = some r ∧
      r.node_type = info.node_type)

lemma handle_node_finished_succ_detail {clk : Nat} {ts : TaskState}
    {db : Database} {ev : NodeSucceededEvent} {r : NodeExecutionRecord}
    {ts' : TaskState} {db' : Database}
    (h : handle_node_finished clk ts db (Event.nodeSucceeded ev) =
      some (r, ts', db')) :
    ∃ cur wne, assocGet? ts.ran_node_execution_infos ev.node_id = some cur ∧
      findNodeExec db cur.workflow_node_execution_id = some wne ∧
      r = workflow_node_execution_success wne clk cur.start_at ev.inputs
        ev.process_data ev.outputs ev.execution_metadata ∧
      db' = updateNodeExec db r ∧
      ((r.node_type == "llm") = true →
        ∃ od, r.outputs = some od ∧
          ts'.metadata_usage = some ((assocGet? od "usage").getD (Value.dict []))) ∧
      ((r.node_type == "llm") = false → ts'.metadata_usage = ts.metadata_usage) := by
  simp only [handle_node_finished] at h
  split at h
  · cases h
  · rename_i cur hl
    split at h
    · cases h
    · rename_i wne hf
      split at h
      · rename_i hllm
        split at h
        · cases h
        · rename_i od ho
          simp only [Option.some.injEq, Prod.mk.injEq] at h
          obtain ⟨hr, hts, hdb⟩ := h
          subst hr; subst hts; subst hdb
          refine ⟨cur, wne, hl, hf, rfl, rfl, ?_, ?_⟩
          · intro _
            exact ⟨od, ho, rfl⟩
          · intro hq
            rw [hllm] at hq
            cases hq
      · rename_i hllm
        simp only [Option.some.injEq, Prod.mk.injEq] at h
        obtain ⟨hr, hts, hdb⟩ := h
        subst hr; subst hts; subst hdb
        refine ⟨cur, wne, hl, hf, rfl, rfl, ?_, ?_⟩
        · intro hq
          exact absurd hq (by simpa using hllm)
        · intro _
          rfl

lemma handle_node_finished_fail_detail {clk : Nat} {ts : TaskState}
    {db : Database} {ev : NodeFailedEvent} {r : NodeExecutionRecord}
    {ts' : TaskState} {db' : Database}
    (h : handle_node_finished clk ts db (Event.nodeFailed ev) =
      some (r, ts', db')) :
    ∃ cur wne, assocGet? ts.ran_node_execution_infos ev.node_id = some cur ∧
      findNodeExec db cur.workflow_node_execution_id = some wne ∧
      r = workflow_node_execution_failed wne clk cur.start_at ev.error
        ev.inputs ev.process_data ev.outputs ∧
      db' = updateNodeExec db r ∧ ts' = ts := by
  simp only [handle_node_finished] at h
  split at h
  · cases h
  · rename_i cur hl
    split at h
    · cases h
    · rename_i wne hf
      simp only [Option.some.injEq, Prod.mk.injEq] at h
      obtain ⟨hr, hts, hdb⟩ := h
      subst hr; subst hts; subst hdb
      exact ⟨cur, wne, hl, hf, rfl, rfl, rfl⟩

lemma storeDict_some {o : Option Dict} {od : Dict} (h : storeDict o = some od) :
    o = some od := by
  cases o with
  | none => cases h
  | some es =>
      simp only [storeDict] at h
      split at h
      · cases h
      · exact h

lemma InvC7_updateNodeExec {types : List (String × String)} {ts : TaskState}
    {db : Database} {rec wne : NodeExecutionRecord} {key : Nat}
    (hinv : InvC7 types ts db)
    (hfind : db.nodeExecs key = some wne)
    (hid : rec.id = wne.id)
    (htype : rec.node_type = wne.node_type) :
    InvC7 types ts (updateNodeExec db rec) := by
  obtain ⟨hfresh, hkey, htypes, hrec⟩ := hinv
  have hkeyw : wne.id = key := hkey key wne hfind
  have hkeylt : key < db.nextId := by
    by_contra hge
    rw [hfresh key (by omega)] at hfind
    cases hfind
  refine ⟨?_, ?_, htypes, ?_⟩
  · intro i hi
    have hi' : db.nextId ≤ i := hi
    show (if i == rec.id then some rec else db.nodeExecs i) = none
    have hne : (i == rec.id) = false := by
      rw [hid, hkeyw]
      simp only [beq_eq_false_iff_ne, ne_eq]
      omega
    simp only [hne, Bool.false_eq_true, if_false]
    exact hfresh i hi'
  · intro i r hr
    revert hr
    show (if i == rec.id then some rec else db.nodeExecs i) = some r → r.id = i
    intro hr
    by_cases hq : (i == rec.id) = true
    · rw [if_pos hq] at hr
      have hri : r = rec := Option.some.inj hr.symm
      have hieq : i = rec.id := by simpa using hq
      rw [hri, hieq]
    · rw [if_neg (by simpa using hq)] at hr
      exact hkey i r hr
  · intro nid info hget
    obtain ⟨r1, hr1, htyp1⟩ := hrec nid info hget
    by_cases hq : info.workflow_node_execution_id = rec.id
    · refine ⟨rec, ?_, ?_⟩
      · show (if info.workflow_node_execution_id == rec.id then some rec
            else db.nodeExecs info.workflow_node_execution_id) = some rec
        simp [hq]
      · have hr1w : r1 = wne := by
          rw [hq, hid, hkeyw] at hr1
          exact Option.some.inj (hr1.symm.trans hfind)
        rw [htype, ← htyp1, hr1w]
    · refine ⟨r1, ?_, htyp1⟩
      show (if info.workflow_node_execution_id == rec.id then some rec
          else db.nodeExecs info.workflow_node_execution_id) = some r1
      have hne : (info.workflow_node_execution_id == rec.id) = false :=
        beq_eq_false_iff_ne.mpr hq
      simp only [hne, Bool.false_eq_true, if_false]
      exact hr1

lemma step_c7 {cfg cfg' : Config} {e : Event} {types : List (String × String)}
    (h : step cfg e = some cfg') (hinv : InvC7 types cfg.ts cfg.db) :
    InvC7 (typesAfterEvent types e) cfg'.ts cfg'.db ∧
    cfg'.ts.metadata_usage = usageAfterEvent types cfg.ts.metadata_usage e := by
  obtain ⟨hfresh, hkey, htypes, hrec⟩ := hinv
  cases e with
  | nodeStarted ev =>
      simp only [step] at h
      cases hs : handle_node_start cfg.clock cfg.ts cfg.db ev with
      | none => rw [hs] at h; cases h
      | some r =>
          obtain ⟨rec0, ts1, db1⟩ := r
          rw [hs] at h
          simp only [Option.some.injEq] at h
          subst h
          obtain ⟨-, -, husage, -, -, hinfos, -, -, hnext, hexecs, hrtype, hrid⟩ :=
            handle_node_start_spec hs
          refine ⟨⟨?_, ?_, ?_, ?_⟩, husage⟩
          · intro i hi
            rw [hnext] at hi
            rw [hexecs]
            have hne : (i == cfg.db.nextId) = false := by
              simp only [beq_eq_false_iff_ne, ne_eq]
              omega
            simp only [hne, Bool.false_eq_true, if_false]
            exact hfresh i (by omega)
          · intro i r hr
            rw [hexecs] at hr
            have hr' : (if i == cfg.db.nextId then some rec0
                else cfg.db.nodeExecs i) = some r := hr
            by_cases hq : (i == cfg.db.nextId) = true
            · rw [if_pos hq] at hr'
              have hri : r = rec0 := Option.some.inj hr'.symm
              have hieq : i = cfg.db.nextId := by simpa using hq
              rw [hri, hrid, hieq]
            · rw [if_neg (by simpa using hq)] at hr'
              exact hkey i r hr'
          · intro nid
            rw [hinfos]
            show (assocGet? (assocInsert cfg.ts.ran_node_execution_infos
                ev.node_id ⟨cfg.db.nextId, ev.node_type, cfg.clock⟩) nid).map
                (fun info => info.node_type)
              = assocGet? (assocInsert types ev.node_id ev.node_type) nid
            by_cases hq : nid = ev.node_id
            · subst hq
              rw [assocGet_insert_self, assocGet_insert_self]
              rfl
            · rw [assocGet_insert_ne _ _ _ _ hq, assocGet_insert_ne _ _ _ _ hq]
              exact htypes nid
          · intro nid info hget
            rw [hinfos] at hget
            by_cases hq : nid = ev.node_id
            · subst hq
              rw [assocGet_insert_self] at hget
              obtain rfl := Option.some.inj hget
              refine ⟨rec0, ?_, ?_⟩
              · rw [hexecs]
                simp
              · rw [hrtype]
            · rw [assocGet_insert_ne _ _ _ _ hq] at hget
              obtain ⟨r0, hr0, htyp0⟩ := hrec nid info hget
              refine ⟨r0, ?_, htyp0⟩
              rw [hexecs]
              have hlt : info.workflow_node_execution_id ≠ cfg.db.nextId := by
                intro hq2
                rw [hq2, hfresh cfg.db.nextId (le_refl _)] at hr0
                cases hr0
              have hne : (info.workflow_node_execution_id == cfg.db.nextId) = false :=
                beq_eq_false_iff_ne.mpr hlt
              simp only [hne, Bool.false_eq_true, if_false]
              exact hr0
  | nodeSucceeded ev =>
      simp only [step] at h
      cases hs : handle_node_finished cfg.clock cfg.ts cfg.db (Event.nodeSucceeded ev) with
      | none => rw [hs] at h; cases h
      | some r =>
          obtain ⟨rec0, ts1, db1⟩ := r
          rw [hs] at h
          simp only [Option.some.injEq] at h
          subst h
          obtain ⟨-, -, -, hinfos1, -, -, -, -⟩ := handle_node_finished_spec hs
          obtain ⟨cur, wne, hl, hf, hr, hdb, hllmT, hllmF⟩ :=
            handle_node_finished_succ_detail hs
          have htypeid : assocGet? types ev.node_id = some cur.node_type := by
            have hmap := htypes ev.node_id
            rw [hl] at hmap
            simpa using hmap.symm
          obtain ⟨r0, hr0, htyp0⟩ := hrec ev.node_id cur hl
          have hwne0 : wne = r0 := Option.some.inj (hf.symm.trans hr0)
          have hwnetype : wne.node_type = cur.node_type := by
            rw [hwne0]; exact htyp0
          have hrectype : rec0.node_type = wne.node_type := by rw [hr]; rfl
          have hrecid : rec0.id = wne.id := by rw [hr]; rfl
          have hguard : (rec0.node_type == "llm")
              = (assocGet? types ev.node_id == some "llm") := by
            rw [htypeid, hrectype, hwnetype]
            rfl
          have hupd : InvC7 types cfg.ts (updateNodeExec cfg.db rec0) :=
            InvC7_updateNodeExec ⟨hfresh, hkey, htypes, hrec⟩ hf hrecid hrectype
          obtain ⟨hfresh', hkey', htypes', hrec'⟩ := hupd
          refine ⟨⟨?_, ?_, ?_, ?_⟩, ?_⟩
          · rw [hdb]; exact hfresh'
          · rw [hdb]; exact hkey'
          · intro nid
            rw [hinfos1]
            exact htypes' nid
          · intro nid info hget
            rw [hinfos1] at hget
            rw [hdb]
            exact hrec' nid info hget
          · simp only [usageAfterEvent]
            rw [← hguard]
            cases hgb : rec0.node_type == "llm" with
            | true =>
                simp only [if_true]
                obtain ⟨od, hod, husage⟩ := hllmT hgb
                rw [husage]
                have hout : storeDict (handle_special_values ev.outputs) = some od := by
                  rw [hr] at hod
                  exact hod
                have hev : ev.outputs = some od := storeDict_some hout
                rw [show usageFromOutputs ev.outputs
                    = (assocGet? od "usage").getD (Value.dict []) by
                  rw [hev]; rfl]
            | false =>
                simp only [Bool.false_eq_true, if_false]
                exact hllmF hgb
  | nodeFailed ev =>
      simp only [step] at h
      cases hs : handle_node_finished cfg.clock cfg.ts cfg.db (Event.nodeFailed ev) with
      | none => rw [hs] at h; cases h
      | some r =>
          obtain ⟨rec0, ts1, db1⟩ := r
          rw [hs] at h
          simp only [Option.some.injEq] at h
          subst h
          obtain ⟨cur, wne, hl, hf, hr, hdb, hts⟩ :=
            handle_node_finished_fail_detail hs
          have hrectype : rec0.node_type = wne.node_type := by rw [hr]; rfl
          have hrecid : rec0.id = wne.id := by rw [hr]; rfl
          have hupd : InvC7 types cfg.ts (updateNodeExec cfg.db rec0) :=
            InvC7_updateNodeExec ⟨hfresh, hkey, htypes, hrec⟩ hf hrecid hrectype
          obtain ⟨hfresh', hkey', htypes', hrec'⟩ := hupd
          subst hts
          refine ⟨⟨?_, ?_, htypes', ?_⟩, rfl⟩
          · rw [hdb]; exact hfresh'
          · rw [hdb]; exact hkey'
          · intro nid info hget
            rw [hdb]
            exact hrec' nid info hget
  | stop =>
      simp only [step] at h
      cases hs : handle_workflow_finished cfg.clock cfg.ts cfg.db Event.stop with
      | none => rw [hs] at h; cases h
      | some r =>
          obtain ⟨res, ts1, db1⟩ := r
          rw [hs] at h
          simp only [Option.some.injEq] at h
          subst h
          obtain ⟨-, -, -, hinfos, -, husage, hexecs, hnext⟩ :=
            handle_workflow_finished_spec hs
          refine ⟨⟨?_, ?_, ?_, ?_⟩, husage⟩
          · intro i hi
            rw [hnext] at hi
            rw [hexecs]
            exact hfresh i hi
          · intro i r hr
            rw [hexecs] at hr
            exact hkey i r hr
          · intro nid
            rw [hinfos]
            exact htypes nid
          · intro nid info hget
            rw [hinfos] at hget
            rw [hexecs]
            exact hrec nid info hget
  | workflowSucceeded =>
      simp only [step] at h
      cases hs : handle_workflow_finished cfg.clock cfg.ts cfg.db Event.workflowSucceeded with
      | none => rw [hs] at h; cases h
      | some r =>
          obtain ⟨res, ts1, db1⟩ := r
          rw [hs] at h
          simp only [Option.some.injEq] at h
          subst h
          obtain ⟨-, -, -, hinfos, -, husage, hexecs, hnext⟩ :=
            handle_workflow_finished_spec hs
          refine ⟨⟨?_, ?_, ?_, ?_⟩, husage⟩
          · intro i hi
            rw [hnext] at hi
            rw [hexecs]
            exact hfresh i hi
          · intro i r hr
            rw [hexecs] at hr
            exact hkey i r hr
          · intro nid
            rw [hinfos]
            exact htypes nid
          · intro nid info hget
            rw [hinfos] at hget
            rw [hexecs]
            exact hrec nid info hget
  | workflowFailed err =>
      simp only [step] at h
      cases hs : handle_workflow_finished cfg.clock cfg.ts cfg.db (Event.workflowFailed err) with
      | none => rw [hs] at h; cases h
      | some r =>
          obtain ⟨res, ts1, db1⟩ := r
          rw [hs] at h
          simp only [Option.some.injEq] at h
          subst h
          obtain ⟨-, -, -, hinfos, -, husage, hexecs, hnext⟩ :=
            handle_workflow_finished_spec hs
          refine ⟨⟨?_, ?_, ?_, ?_⟩, husage⟩
          · intro i hi
            rw [hnext] at hi
            rw [hexecs]
            exact hfresh i hi
          · intro i r hr
            rw [hexecs] at hr
            exact hkey i r hr
          · intro nid
            rw [hinfos]
            exact htypes nid
          · intro nid info hget
            rw [hinfos] at hget
            rw [hexecs]
            exact hrec nid info hget

lemma c7_trace (evs : List Event) (cfg cfg' : Config)
    (types : List (String × String))
    (hinv : InvC7 types cfg.ts cfg.db)
    (h : processEvents cfg evs = some cfg') :
    cfg'.ts.metadata_usage = llmUsageAfter types cfg.ts.metadata_usage evs := by
  induction evs generalizing cfg types with
  | nil =>
      simp only [processEvents, Option.some.injEq] at h
      subst h
      rfl
  | cons e rest ih =>
      obtain ⟨c, hs, hrest⟩ := processEvents_cons h
      obtain ⟨hinv', husage⟩ := step_c7 hs hinv
      simp only [llmUsageAfter]
      rw [← husage]
      exact ih c (typesAfterEvent types e) hinv' hrest

/-- C7: starting from a fresh invocation (no node bookkeeping yet, no
unallocated-id rows in the repository), after successfully processing any
event sequence the run-level usage snapshot in task state equals the
`'usage'` field of the outputs of the most recently succeeded `'llm'`-typed
node (each succeeding LLM node overwrites the prior snapshot, per
`llmUsageAfter`); failed LLM nodes and non-LLM nodes never update it, and it
keeps its initial value when no LLM node ever succeeded. -/
theorem c7_llm_usage (evs : List Event) (cfg cfg' : Config)
    (hempty : cfg.ts.ran_node_execution_infos = [])
    (hfresh : ∀ i, cfg.db.nextId ≤ i → cfg.db.nodeExecs i = none)
    (hkey : ∀ i r, cfg.db.nodeExecs i = some r → r.id = i)
    (hproc : processEvents cfg evs = some cfg') :
    cfg'.ts.metadata_usage = llmUsageAfter [] cfg.ts.metadata_usage evs := by
  apply c7_trace evs cfg cfg' []
  · refine ⟨hfresh, hkey, ?_, ?_⟩
    · intro nid
      rw [hempty]
      rfl
    · intro nid info hget
      rw [hempty] at hget
      simp [assocGet?] at hget
  · exact hproc

/-- Demo trace for the usage snapshot: two LLM nodes succeed in turn, then a
non-LLM node succeeds with a decoy `'usage'` output. -/
def llmTrace : List Event :=
  [Event.nodeStarted
    { node_id := "L", node_type := "llm", title := "L", node_run_index := 1,
      predecessor_node_id := none },
   Event.nodeSucceeded
    { node_id := "L", inputs := none, process_data := none,
      outputs := some [("text", Value.str "hi"),
        ("usage", Value.dict [("total_tokens", Value.int 3)])],
      execution_metadata := some [("total_tokens", 3)] },
   Event.nodeStarted
    { node_id := "M", node_type := "llm", title := "M", node_run_index := 2,
      predecessor_node_id := none },
   Event.nodeSucceeded
    { node_id := "M", inputs := none, process_data := none,
      outputs := some [("usage", Value.dict [("total_tokens", Value.int 7)])],
      execution_metadata := none },
   Event.nodeStarted
    { node_id := "C", node_type := "code", title := "C", node_run_index := 3,
      predecessor_node_id := none },
   Event.nodeSucceeded
    { node_id := "C", inputs := none, process_data := none,
      outputs := some [("usage", Value.dict [("total_tokens", Value.int 99)])],
      execution_metadata := none }]

/-- Witness for C7: on `llmTrace` the machine's final snapshot matches the
claim-side fold (the second LLM node's usage; the code node's decoy `usage`
output is ignored). -/
theorem c7_witness :
    ((processEvents demoCfg llmTrace).getD demoCfg).ts.metadata_usage
      = llmUsageAfter [] demoCfg.ts.metadata_usage llmTrace :=
  c7_llm_usage llmTrace demoCfg _ rfl (fun _ _ => rfl)
    (fun _ r hr => Option.noConfusion hr) rfl

/-! ### Final outputs on WorkflowSucceeded (C1) -/

/-- Trace in which node `"B"` starts last but node `"A"` finishes last:
`A` starts (row id 10), `B` starts (row id 11), `B` succeeds at clock 2,
`A` succeeds at clock 3, then the workflow succeeds. -/
def c1Trace : List Event :=
  [Event.nodeStarted
    { node_id := "A", node_type := "code", title := "A", node_run_index := 1,
      predecessor_node_id := none },
   Event.nodeStarted
    { node_id := "B", node_type := "code", title := "B", node_run_index := 2,
      predecessor_node_id := none },
   Event.nodeSucceeded
    { node_id := "B", inputs := none, process_data := none,
      outputs := some [("y", Value.str "Y")], execution_metadata := none },
   Event.nodeSucceeded
    { node_id := "A", inputs := none, process_data := none,
      outputs := some [("x", Value.str "X")], execution_metadata := none },
   Event.workflowSucceeded]

/-- The configuration after processing `c1Trace`. -/
def c1Final : Config := (processEvents demoCfg c1Trace).getD demoCfg

/-- C1 counterexample: in `c1Final`, node-execution row 10 (node `"A"`) is
the most recently finished one (finished_at 3 > 2), with outputs
`{"x": "X"}`; yet the run's outputs are `{"y": "Y"}` — those of row 11
(node `"B"`), the most recently *started* execution, which is what the
latest-node-execution pointer actually tracks.  So the claim "outputs equal
the raw outputs of the most recently finished node execution" is false. -/
theorem c1_counterexample :
    processEvents demoCfg c1Trace = some c1Final ∧
    (findRun c1Final.db 1).map (fun r => r.outputs)
      = some (some [("y", Value.str "Y")]) ∧
    (c1Final.db.nodeExecs 10).map (fun r => r.finished_at) = some (some 3) ∧
    (c1Final.db.nodeExecs 11).map (fun r => r.finished_at) = some (some 2) ∧
    (c1Final.db.nodeExecs 10).map (fun r => r.outputs)
      = some (some [("x", Value.str "X")]) ∧
    (some [("y", Value.str "Y")] : Option Dict) ≠ some [("x", Value.str "X")] := by
  refine ⟨rfl, rfl, rfl, rfl, rfl, ?_⟩
  intro h
  simp only [Option.some.injEq, List.cons.injEq, Prod.mk.injEq] at h
  obtain ⟨⟨-, hv⟩, -⟩ := h
  injection hv with hv'
  exact absurd hv' (by decide)

/-- C1 (amended): when `_handle_workflow_finished` processes
WorkflowSucceeded (and the run exists), the run's final outputs equal the
stored raw outputs of the node-execution row referenced by task state's
latest-node-execution pointer — which tracks the most recently *started*
node execution, being set by `_handle_node_start` — and when no node
execution is tracked the outputs are absent. -/
theorem c1_amended (clk : Nat) (ts : TaskState) (db : Database)
    (res : Option WorkflowRunRecord) (ts' : TaskState) (db' : Database)
    (run' : WorkflowRunRecord)
    (h : handle_workflow_finished clk ts db Event.workflowSucceeded =
      some (res, ts', db'))
    (hres : res = some run') :
    (ts.latest_node_execution_info = none → run'.outputs = none) ∧
    (∀ info, ts.latest_node_execution_info = some info →
      ∃ wne, findNodeExec db info.workflow_node_execution_id = some wne ∧
        run'.outputs = wne.outputs) := by
  subst hres
  constructor
  · intro hnone
    simp only [handle_workflow_finished, hnone] at h
    split at h
    · simp only [Option.some.injEq, Prod.mk.injEq] at h
      exact absurd h.1 (by simp)
    · simp only [Option.some.injEq, Prod.mk.injEq] at h
      obtain ⟨hrun, -, -⟩ := h
      rw [← hrun]
      rfl
  · intro info hsome
    simp only [handle_workflow_finished, hsome] at h
    cases hfe : findNodeExec db info.workflow_node_execution_id with
    | none =>
        simp only [hfe] at h
        split at h
        · simp only [Option.some.injEq, Prod.mk.injEq] at h
          exact absurd h.1 (by simp)
        · cases h
    | some wne =>
        simp only [hfe] at h
        split at h
        · simp only [Option.some.injEq, Prod.mk.injEq] at h
          exact absurd h.1 (by simp)
        · simp only [Option.some.injEq, Prod.mk.injEq] at h
          obtain ⟨hrun, -, -⟩ := h
          refine ⟨wne, rfl, ?_⟩
          rw [← hrun]
          rfl

/-- The state just before the terminal event of `c1Trace` (both nodes
finished, `"B"` started last). -/
def c1Mid : Config := (processEvents demoCfg (c1Trace.take 4)).getD demoCfg

/-- The result of handling WorkflowSucceeded at `c1Mid`. -/
def c1Res : Option WorkflowRunRecord × TaskState × Database :=
  (handle_workflow_finished c1Mid.clock c1Mid.ts c1Mid.db
    Event.workflowSucceeded).getD (none, ts0, emptyDb)

/-- Witness for C1 (amended), applied at `c1Mid`: the succeeded run's
outputs are those of the row referenced by the latest-started pointer. -/
theorem c1_amended_witness :
    (c1Mid.ts.latest_node_execution_info = none →
      ((c1Res.1).getD demoRun).outputs = none) ∧
    (∀ info, c1Mid.ts.latest_node_execution_info = some info →
      ∃ wne, findNodeExec c1Mid.db info.workflow_node_execution_id = some wne ∧
        ((c1Res.1).getD demoRun).outputs = wne.outputs) :=
  c1_amended c1Mid.clock c1Mid.ts c1Mid.db c1Res.1 c1Res.2.1 c1Res.2.2
    ((c1Res.1).getD demoRun) rfl rfl

end Dify
